import Mathlib

/-!
# Verification of the scanner and expression parser of a small Lox-style interpreter

The scanner definitions below are a shallow embedding of the Go source
(`getTokenByType`, `getStringLiteral`, `getNumberLiteral`, `getIdentifier`,
`getToken` and the column loop of `scan`), working on byte lists exactly as
the Go code works on `[]byte` lines produced by `reader.ReadBytes('\n')`.
The parser definitions embed `parser.go` (`currentToken`, `check`, `match`,
`previousToken`, `advance`, `consume`, `MatchUnary`, `MatchPrimary`,
`MatchExpr`, the AST printer `Print` and `parse`).

Conventions of the embedding:
* bytes are `Nat` values (ASCII codes written as numerals, with the character
  in a nearby comment);
* Go's dynamically typed `literal any` slot becomes the closed union
  `LiteralValue` (absent / string / number);
* `float64` literal values are modelled as exact rationals: every numeric
  literal the scanner builds is a finite decimal, and all values appearing in
  the theorems are exactly representable, so no binary rounding is involved;
* fallible Go code returns `Except`/`Option`; a Go runtime panic (index out
  of range, failed type assertion) is the distinguished result `Res.crash`;
* recursion is driven by an explicit fuel argument that strictly dominates
  the loop measure of the source, so every definition is structurally
  recursive and evaluable; fuel adequacy is proved where a claim needs it.
-/

/-- Error kinds of the scanner: `UnexpectedTokenError`, `UnterminatedStringError`
and the `strconv.ParseFloat` conversion failure (`errors.New("error converting
target to number")`). -/
inductive ScanErrKind
  | unexpectedToken
  | unterminatedString
  | numberConv
deriving DecidableEq, Repr

/-- The `TokenType` constants of the scanner.  `eof` is modelled from the spec:
the version of the scanner that defines the `EOF` kind (referenced by
`parser.go` via `isAtEnd` and produced by `generateEOFToken`) is not among the
source files, and the spec fixes it as a distinguished kind with empty
lexeme. -/
inductive TokenType
  | leftParen | rightParen | leftBrace | rightBrace
  | star | comma | plus | dot | minus | semicolon
  | equal | equalEqual | bang | bangEqual
  | less | lessEqual | greater | greaterEqual
  | slash
  | string | number | identifier | keyword
  | eof
deriving DecidableEq, Repr

/-- Closed union replacing the Go `literal any` slot: absent, a string
(byte list), or a number (exact rational standing for the `float64`). -/
inductive LiteralValue
  | none
  | str (s : List Nat)
  | num (q : ℚ)
deriving DecidableEq, Repr

/-- The `Token` struct: kind, line, lexeme, literal. -/
structure Token where
  tokenType : TokenType
  line : Nat
  lexeme : List Nat
  literal : LiteralValue
deriving DecidableEq, Repr

/-- The string value of each `TokenType` constant (`string(tokenType)`), as
bytes.  The multi-byte ones are the Go constants STR / NUM / ID / KEYWORD; the
`eof` lexeme is empty (modelled from the spec). -/
def typeLexeme : TokenType → List Nat
  | .leftParen => [40]        -- (
  | .rightParen => [41]       -- )
  | .leftBrace => [123]       -- left curly bracket
  | .rightBrace => [125]      -- right curly bracket
  | .star => [42]             -- *
  | .comma => [44]            -- ,
  | .plus => [43]             -- +
  | .dot => [46]              -- .
  | .minus => [45]            -- -
  | .semicolon => [59]        -- ;
  | .equal => [61]            -- =
  | .equalEqual => [61, 61]   -- ==
  | .bang => [33]             -- !
  | .bangEqual => [33, 61]    -- !=
  | .less => [60]             -- <
  | .lessEqual => [60, 61]    -- <=
  | .greater => [62]          -- >
  | .greaterEqual => [62, 61] -- >=
  | .slash => [47]            -- /
  | .string => [83, 84, 82]   -- STR
  | .number => [78, 85, 77]   -- NUM
  | .identifier => [73, 68]   -- ID
  | .keyword => [75, 69, 89, 87, 79, 82, 68] -- KEYWORD
  | .eof => []

/-- `generateToken`: token whose lexeme is the type's own string, no literal. -/
def generateToken (tokenType : TokenType) (line : Nat) : Token :=
  ⟨tokenType, line, typeLexeme tokenType, .none⟩

/-- `generateStrToken`: lexeme is the quoted text, literal is the text with
every double quote removed (`strings.ReplaceAll(literal, quote, "")`). -/
def generateStrToken (line : Nat) (literal : List Nat) : Token :=
  ⟨.string, line, literal, .str (literal.filter (fun c => c != 34))⟩

/-- `generateNumberToken`. -/
def generateNumberToken (line : Nat) (literal : ℚ) (lexeme : List Nat) : Token :=
  ⟨.number, line, lexeme, .num literal⟩

/-- `generateIdentifierToken`. -/
def generateIdentifierToken (line : Nat) (lexeme : List Nat) : Token :=
  ⟨.identifier, line, lexeme, .none⟩

/-- `generateKeywordToken`. -/
def generateKeywordToken (line : Nat) (lexeme : List Nat) : Token :=
  ⟨.keyword, line, lexeme, .none⟩

/-- Modelled from the spec: the synthetic `EOF` token appended at end of input
(the scanner source in the repository prints the final `EOF  null` line and the
file defining `generateEOFToken` is absent); the spec gives it kind `EOF`, an
empty lexeme, no literal, and the last line scanned. -/
def eofToken (line : Nat) : Token :=
  ⟨.eof, line, [], .none⟩

/-- The reserved-word set (keys of the `keywords` map). -/
def keywords : List (List Nat) :=
  [ [97, 110, 100]                -- and
  , [99, 108, 97, 115, 115]      -- class
  , [101, 108, 115, 101]         -- else
  , [102, 97, 108, 115, 101]     -- false
  , [102, 111, 114]              -- for
  , [102, 117, 110]              -- fun
  , [105, 102]                   -- if
  , [110, 105, 108]              -- nil
  , [111, 114]                   -- or
  , [112, 114, 105, 110, 116]    -- print
  , [114, 101, 116, 117, 114, 110] -- return
  , [115, 117, 112, 101, 114]    -- super
  , [116, 104, 105, 115]         -- this
  , [116, 114, 117, 101]         -- true
  , [118, 97, 114]               -- var
  , [119, 104, 105, 108, 101]    -- while
  ]

/-- `unicode.IsDigit(rune(b))` for a single byte: only the ASCII digits are in
category Nd below 256. -/
def isDigitByte (c : Nat) : Bool :=
  decide (48 ≤ c ∧ c ≤ 57)

/-- `unicode.IsLetter(rune(b))` for a single byte: the ASCII letters plus the
Latin-1 letters (ordinal indicators, micro sign, and the accented ranges,
excluding multiplication and division signs). -/
def isLetterByte (c : Nat) : Bool :=
  decide ((65 ≤ c ∧ c ≤ 90) ∨ (97 ≤ c ∧ c ≤ 122) ∨ c = 170 ∨ c = 181 ∨ c = 186 ∨
    (192 ≤ c ∧ c ≤ 214) ∨ (216 ≤ c ∧ c ≤ 246) ∨ (248 ≤ c ∧ c ≤ 255))

/-- `isSpace`: space, tab or newline. -/
def isSpace (c : Nat) : Bool :=
  c == 32 || c == 9 || c == 10

/-- `matchNextChar`: the byte after `col` exists and equals `target`. -/
def matchNextChar (line : List Nat) (col : Nat) (target : Nat) : Bool :=
  match line.get? (col + 1) with
  | some c => c == target
  | none => false

/-- `countSkipLineComment`: remaining length of the line from `col`. -/
def countSkipLineComment (line : List Nat) (col : Nat) : Nat :=
  line.length - col

/-- `isComment`: a `/` immediately followed by another `/`. -/
def isComment (line : List Nat) (col : Nat) : Bool :=
  line.get? col == some 47 && matchNextChar line col 47

/-- The loop of `getTokenByType`: the bytes of `target` all occur in `line`
starting at `col`. -/
def matchesFrom (line : List Nat) (col : Nat) : List Nat → Bool
  | [] => true
  | t :: ts =>
    match line.get? col with
    | some c => c == t && matchesFrom line (col + 1) ts
    | none => false

/-- `getTokenByType`: emit the token for `target` when its spelling occurs at
`col`, else `UnexpectedTokenError`. -/
def getTokenByType (line : List Nat) (lineNumber col : Nat) (target : TokenType) :
    Except ScanErrKind Token :=
  if matchesFrom line col (typeLexeme target) then
    Except.ok (generateToken target lineNumber)
  else
    Except.error ScanErrKind.unexpectedToken

/-- Loop of `getStringLiteral`, started at `col + 1` with the opening quote
already in `acc`; returns the accumulated text (or the unterminated error)
together with the index at which the loop stopped.  The fuel dominates
`line.length - i` in every use. -/
def getStringLiteralAux (line : List Nat) : Nat → Nat → List Nat →
    Except ScanErrKind (List Nat) × Nat
  | 0, i, _ => (Except.error ScanErrKind.unterminatedString, i)
  | fuel + 1, i, acc =>
    if i < line.length then
      if line.getD i 0 = 10 then (Except.error ScanErrKind.unterminatedString, i)
      else if line.getD i 0 = 34 then (Except.ok (acc ++ [34]), i)
      else getStringLiteralAux line fuel (i + 1) (acc ++ [line.getD i 0])
    else (Except.error ScanErrKind.unterminatedString, i)

/-- `getStringLiteral`: scan from the opening quote at `col`; the returned
count is `i - col + 1` where `i` is the index at which the loop stopped
(closing quote, newline, or end of line). -/
def getStringLiteral (line : List Nat) (col : Nat) : Except ScanErrKind (List Nat) × Nat :=
  match getStringLiteralAux line (line.length + 1) (col + 1) [34] with
  | (r, i) => (r, i - col + 1)

/-- Decimal digits to a natural number. -/
def natOfDigits (l : List Nat) : Nat :=
  l.foldl (fun a c => a * 10 + (c - 48)) 0

/-- `strconv.ParseFloat` restricted to the digit-and-dot strings that
`getNumberLiteral` builds: accepted iff the string has at least one digit and
at most one dot, every byte being a digit or a dot (Go accepts a trailing dot,
as in `123.`).  The value is the exact decimal; binary float64 rounding is not
modelled (all values reached by the theorems are exactly representable). -/
def parseFloatDec (s : List Nat) : Option ℚ :=
  if s.all (fun c => isDigitByte c || c == 46) && s.any (fun c => isDigitByte c) then
    match s.dropWhile (fun c => c != 46) with
    | [] => some (mkRat (natOfDigits s) 1)
    | _ :: frac =>
      if frac.contains 46 then Option.none
      else some (mkRat (natOfDigits (s.filter (fun c => c != 46))) (10 ^ frac.length))
  else Option.none

/-- Loop of `getNumberLiteral`: consume digits, and a dot provided the
accumulated text contains no dot yet; returns the accumulated text and the
index at which the loop stopped. -/
def getNumberLiteralAux (line : List Nat) : Nat → Nat → List Nat → List Nat × Nat
  | 0, i, raw => (raw, i)
  | fuel + 1, i, raw =>
    if i < line.length then
      if isDigitByte (line.getD i 0) then
        getNumberLiteralAux line fuel (i + 1) (raw ++ [line.getD i 0])
      else if line.getD i 0 = 46 && !(raw.contains 46) then
        getNumberLiteralAux line fuel (i + 1) (raw ++ [line.getD i 0])
      else (raw, i)
    else (raw, i)

/-- `getNumberLiteral`: the consumed text, its parsed value (`none` for the
conversion error) and the consumed count `i - col`. -/
def getNumberLiteral (line : List Nat) (col : Nat) : Option ℚ × List Nat × Nat :=
  match getNumberLiteralAux line (line.length + 1) col [] with
  | (raw, i) => (parseFloatDec raw, raw, i - col)

/-- Loop of `getIdentifier`: consume digits, underscores and letters. -/
def getIdentifierAux (line : List Nat) : Nat → Nat → List Nat → List Nat × Nat
  | 0, i, acc => (acc, i)
  | fuel + 1, i, acc =>
    if i < line.length then
      if isDigitByte (line.getD i 0) || line.getD i 0 = 95 || isLetterByte (line.getD i 0) then
        getIdentifierAux line fuel (i + 1) (acc ++ [line.getD i 0])
      else (acc, i)
    else (acc, i)

/-- `getIdentifier`: the consumed text and count. -/
def getIdentifier (line : List Nat) (col : Nat) : List Nat × Nat :=
  match getIdentifierAux line (line.length + 1) col [] with
  | (acc, i) => (acc, i - col)

/-- `getToken`: classify the byte at `col` and produce the token (or error)
together with the number of consumed bytes, following the case order of the
source.  The `none` branch of the head lookup is unreachable: the scan loop
only calls `getToken` with `col < line.length`. -/
def getToken (line : List Nat) (lineNumber col : Nat) : Except ScanErrKind Token × Nat :=
  match line.get? col with
  | Option.none => (Except.error ScanErrKind.unexpectedToken, 1)
  | some c =>
    if c = 40 then (Except.ok (generateToken .leftParen lineNumber), 1)
    else if c = 41 then (Except.ok (generateToken .rightParen lineNumber), 1)
    else if c = 123 then (Except.ok (generateToken .leftBrace lineNumber), 1)
    else if c = 125 then (Except.ok (generateToken .rightBrace lineNumber), 1)
    else if c = 42 then (Except.ok (generateToken .star lineNumber), 1)
    else if c = 46 then (Except.ok (generateToken .dot lineNumber), 1)
    else if c = 44 then (Except.ok (generateToken .comma lineNumber), 1)
    else if c = 43 then (Except.ok (generateToken .plus lineNumber), 1)
    else if c = 45 then (Except.ok (generateToken .minus lineNumber), 1)
    else if c = 59 then (Except.ok (generateToken .semicolon lineNumber), 1)
    else if c = 61 then
      match getTokenByType line lineNumber col .equalEqual with
      | Except.error _ => (Except.ok (generateToken .equal lineNumber), 1)
      | Except.ok tok => (Except.ok tok, tok.lexeme.length)
    else if c = 33 then
      match getTokenByType line lineNumber col .bangEqual with
      | Except.error _ => (Except.ok (generateToken .bang lineNumber), 1)
      | Except.ok tok => (Except.ok tok, tok.lexeme.length)
    else if c = 60 then
      match getTokenByType line lineNumber col .lessEqual with
      | Except.error _ => (Except.ok (generateToken .less lineNumber), 1)
      | Except.ok tok => (Except.ok tok, tok.lexeme.length)
    else if c = 62 then
      match getTokenByType line lineNumber col .greaterEqual with
      | Except.error _ => (Except.ok (generateToken .greater lineNumber), 1)
      | Except.ok tok => (Except.ok tok, tok.lexeme.length)
    else if c = 47 then (Except.ok (generateToken .slash lineNumber), 1)
    else if c = 34 then
      match getStringLiteral line col with
      | (Except.error e, count) => (Except.error e, count)
      | (Except.ok s, count) => (Except.ok (generateStrToken lineNumber s), count)
    else if isDigitByte c then
      match getNumberLiteral line col with
      | (Option.none, _, count) => (Except.error ScanErrKind.numberConv, count)
      | (some q, raw, count) => (Except.ok (generateNumberToken lineNumber q raw), count)
    else if isLetterByte c || c = 95 then
      match getIdentifier line col with
      | (target, count) =>
        if keywords.contains target then (Except.ok (generateKeywordToken lineNumber target), count)
        else (Except.ok (generateIdentifierToken lineNumber target), count)
    else (Except.error ScanErrKind.unexpectedToken, 1)

/-- Result of a scan: the emitted tokens, the reported errors as
(line, kind) pairs in report order, and whether a `log.Fatalf` abort occurred
(only the number-conversion error reaches it; see `getToken`). -/
structure ScanResult where
  tokens : List Token
  errs : List (Nat × ScanErrKind)
  fatal : Bool
deriving DecidableEq, Repr

/-- `hasErrors` of `scan`: set exactly when some recoverable error was
reported. -/
def hadError (r : ScanResult) : Bool :=
  !r.errs.isEmpty

/-- The column loop of `scan` over one line: skip comments and whitespace,
otherwise take one token step and advance by its count.  The fuel dominates
`line.length - col`; the fuel-exhausted value is never reached in any use
below. -/
def scanLineAux (line : List Nat) (lineNumber : Nat) : Nat → Nat → ScanResult
  | 0, _ => ⟨[], [], false⟩
  | fuel + 1, col =>
    if col < line.length then
      if isComment line col then
        scanLineAux line lineNumber fuel (col + countSkipLineComment line col)
      else if isSpace (line.getD col 0) then
        scanLineAux line lineNumber fuel (col + 1)
      else
        match getToken line lineNumber col with
        | (Except.error ScanErrKind.numberConv, _) => ⟨[], [], true⟩
        | (Except.error e, count) =>
          match scanLineAux line lineNumber fuel (col + count) with
          | r => ⟨r.tokens, (lineNumber, e) :: r.errs, r.fatal⟩
        | (Except.ok tok, count) =>
          match scanLineAux line lineNumber fuel (col + count) with
          | r => ⟨tok :: r.tokens, r.errs, r.fatal⟩
    else ⟨[], [], false⟩

/-- One line of the scan, from column 0, with adequate fuel. -/
def scanLine (line : List Nat) (lineNumber : Nat) : ScanResult :=
  scanLineAux line lineNumber (line.length + 1) 0

/-- One `reader.ReadBytes('\n')` step: the bytes up to and including the first
newline, and the rest of the input (`none` when the delimiter was not found,
which is the `io.EOF` case). -/
def breakLine : List Nat → List Nat × Option (List Nat)
  | [] => ([], Option.none)
  | c :: rest =>
    if c = 10 then ([10], some rest)
    else
      match breakLine rest with
      | (l, r) => (c :: l, r)

/-- All the lines `ReadBytes` yields, in order; the last element is the
delimiter-less remainder (possibly empty).  The fuel dominates the input
length. -/
def splitLinesAux : Nat → List Nat → List (List Nat)
  | 0, input => [input]
  | fuel + 1, input =>
    match breakLine input with
    | (l, Option.none) => [l]
    | (l, some rest) => l :: splitLinesAux fuel rest

/-- The line decomposition of the input. -/
def splitLines (input : List Nat) : List (List Nat) :=
  splitLinesAux (input.length + 1) input

/-- The line loop of `scan`: process each line with an incrementing line
number; after the last line (the `io.EOF` read) append the synthetic `EOF`
token.  A fatal number-conversion abort stops everything. -/
def scanLines : List (List Nat) → Nat → ScanResult
  | [], _ => ⟨[], [], false⟩
  | [l], n =>
    match scanLine l n with
    | r =>
      if r.fatal then ⟨r.tokens, r.errs, true⟩
      else ⟨r.tokens ++ [eofToken n], r.errs, false⟩
  | l :: l2 :: ls, n =>
    match scanLine l n with
    | r =>
      if r.fatal then ⟨r.tokens, r.errs, true⟩
      else
        match scanLines (l2 :: ls) (n + 1) with
        | rest => ⟨r.tokens ++ rest.tokens, r.errs ++ rest.errs, rest.fatal⟩

/-- `scan`: split the input into lines and run the line loop from line 1. -/
def scan (input : List Nat) : ScanResult :=
  scanLines (splitLines input) 1

/-- The expression AST of `parser.go`: literals, grouping, unary. -/
inductive Expr
  | boolean (value : Bool)
  | numberLit (value : ℚ)
  | stringLit (value : List Nat)
  | grouping (value : Expr)
  | unary (operator : Token) (expression : Expr)
  | nilE
deriving DecidableEq, Repr

/-- The parser error values: the two `NewLiteral` messages (carrying the
offending lexeme) and the `consume` message `Expect ')' after expression.`. -/
inductive ParseErr
  | unsupportedKeyword (lexeme : List Nat)
  | unsupportedToken (lexeme : List Nat)
  | expectRightParen
deriving DecidableEq, Repr

/-- Outcome of a parser step: a value, a returned error, a Go runtime panic
(out-of-range slice index or failed type assertion), or fuel exhaustion (never
reached with the fuel used by `parseExpression`; see the adequacy lemma). -/
inductive Res (α : Type)
  | ok (a : α)
  | err (e : ParseErr)
  | crash
  | fuelOut
deriving DecidableEq, Repr

/-- The `Parser` struct: the token slice and the cursor. -/
structure Parser where
  tokens : List Token
  current : Nat
deriving DecidableEq, Repr

/-- `currentToken`: `p.tokens[p.current]`; `none` is the Go panic case. -/
def currentToken (p : Parser) : Option Token :=
  p.tokens.get? p.current

/-- `check`: the current token has the given type (panics when the cursor is
out of range, hence `Option`). -/
def check (p : Parser) (tokenType : TokenType) : Option Bool :=
  (currentToken p).map (fun t => t.tokenType == tokenType)

/-- `isAtEnd`: the current token is `EOF`. -/
def isAtEnd (p : Parser) : Option Bool :=
  (currentToken p).map (fun t => t.tokenType == TokenType.eof)

/-- `previousToken`: `p.tokens[p.current-1]`; with `current = 0` the Go index
is `-1`, a panic (`Res.crash`). -/
def previousToken (p : Parser) : Res Token :=
  if p.current = 0 then Res.crash
  else
    match p.tokens.get? (p.current - 1) with
    | some t => Res.ok t
    | Option.none => Res.crash

/-- `advance`: increment the cursor unless positioned on `EOF`, then return
`previousToken` of the updated parser (unconditionally — this is the read that
panics on an empty-input parse). -/
def advance (p : Parser) : Res (Token × Parser) :=
  match isAtEnd p with
  | Option.none => Res.crash
  | some atEnd =>
    match (if atEnd then p else { p with current := p.current + 1 }) with
    | p2 =>
      match previousToken p2 with
      | Res.ok t => Res.ok (t, p2)
      | _ => Res.crash

/-- `match` of the parser (named `matchTok` here since `match` is reserved):
advance past the current token when it has the given type. -/
def matchTok (p : Parser) (tokenType : TokenType) : Res (Bool × Parser) :=
  match check p tokenType with
  | Option.none => Res.crash
  | some true =>
    match advance p with
    | Res.ok (_, p2) => Res.ok (true, p2)
    | _ => Res.crash
  | some false => Res.ok (false, p)

/-- `consume`: require a token of the given type, else the given error. -/
def consume (p : Parser) (tokenType : TokenType) (e : ParseErr) : Res Parser :=
  match matchTok p tokenType with
  | Res.ok (true, p2) => Res.ok p2
  | Res.ok (false, _) => Res.err e
  | Res.err e2 => Res.err e2
  | Res.crash => Res.crash
  | Res.fuelOut => Res.fuelOut

/-- `NewLiteral`: keyword `true` / `false` / `nil` to the boolean and nil
literals, `NUMBER` / `STRING` to the corresponding literal via the Go type
assertion on the dynamic slot (a mismatched slot is the assertion panic),
anything else an unsupported-token error. -/
def NewLiteral (t : Token) : Res Expr :=
  match t.tokenType with
  | TokenType.keyword =>
    if t.lexeme = [116, 114, 117, 101] then Res.ok (Expr.boolean true)       -- true
    else if t.lexeme = [102, 97, 108, 115, 101] then Res.ok (Expr.boolean false) -- false
    else if t.lexeme = [110, 105, 108] then Res.ok Expr.nilE                 -- nil
    else Res.err (ParseErr.unsupportedKeyword t.lexeme)
  | TokenType.number =>
    match t.literal with
    | LiteralValue.num q => Res.ok (Expr.numberLit q)
    | _ => Res.crash
  | TokenType.string =>
    match t.literal with
    | LiteralValue.str s => Res.ok (Expr.stringLit s)
    | _ => Res.crash
  | _ => Res.err (ParseErr.unsupportedToken t.lexeme)

mutual

/-- `MatchUnary`: a `!` or `-` prefix applied to a recursive unary parse, else
`MatchPrimary`.  The operator is `previousToken` after the successful match. -/
def MatchUnaryF : Nat → Parser → Res (Expr × Parser)
  | 0, _ => Res.fuelOut
  | fuel + 1, p =>
    match matchTok p TokenType.bang with
    | Res.crash => Res.crash
    | Res.fuelOut => Res.fuelOut
    | Res.err e => Res.err e
    | Res.ok (true, p1) =>
      match previousToken p1 with
      | Res.ok op =>
        match MatchUnaryF fuel p1 with
        | Res.ok (e, p2) => Res.ok (Expr.unary op e, p2)
        | Res.err m => Res.err m
        | Res.crash => Res.crash
        | Res.fuelOut => Res.fuelOut
      | _ => Res.crash
    | Res.ok (false, _) =>
      match matchTok p TokenType.minus with
      | Res.crash => Res.crash
      | Res.fuelOut => Res.fuelOut
      | Res.err e => Res.err e
      | Res.ok (true, p1) =>
        match previousToken p1 with
        | Res.ok op =>
          match MatchUnaryF fuel p1 with
          | Res.ok (e, p2) => Res.ok (Expr.unary op e, p2)
          | Res.err m => Res.err m
          | Res.crash => Res.crash
          | Res.fuelOut => Res.fuelOut
        | _ => Res.crash
      | Res.ok (false, _) => MatchPrimaryF fuel p

/-- `MatchPrimary`: a parenthesized `MatchExpr` closed by a required `)`
building a `Grouping`, else `NewLiteral` of the current token followed by an
unconditional `advance` (evaluated even when `NewLiteral` erred, so its panic
preempts the error return). -/
def MatchPrimaryF : Nat → Parser → Res (Expr × Parser)
  | 0, _ => Res.fuelOut
  | fuel + 1, p =>
    match matchTok p TokenType.leftParen with
    | Res.crash => Res.crash
    | Res.fuelOut => Res.fuelOut
    | Res.err e => Res.err e
    | Res.ok (true, p1) =>
      match MatchExprF fuel p1 with
      | Res.crash => Res.crash
      | Res.fuelOut => Res.fuelOut
      | Res.err e => Res.err e
      | Res.ok (ex, p2) =>
        match consume p2 TokenType.rightParen ParseErr.expectRightParen with
        | Res.crash => Res.crash
        | Res.fuelOut => Res.fuelOut
        | Res.err e => Res.err e
        | Res.ok p3 => Res.ok (Expr.grouping ex, p3)
    | Res.ok (false, _) =>
      match currentToken p with
      | Option.none => Res.crash
      | some tok =>
        match NewLiteral tok with
        | Res.crash => Res.crash
        | Res.fuelOut => Res.fuelOut
        | Res.ok e =>
          match advance p with
          | Res.ok (_, p2) => Res.ok (e, p2)
          | _ => Res.crash
        | Res.err m =>
          match advance p with
          | Res.ok (_, _) => Res.err m
          | _ => Res.crash

/-- `MatchExpr`: the expression rule delegates to `MatchUnary`. -/
def MatchExprF : Nat → Parser → Res (Expr × Parser)
  | 0, _ => Res.fuelOut
  | fuel + 1, p => MatchUnaryF fuel p

end

/-- `parseExpression`: run `MatchExpr` on a fresh parser at cursor 0, with
fuel strictly dominating the recursion depth (see the adequacy lemma). -/
def parseExpression (tokens : List Token) : Res (Expr × Parser) :=
  MatchExprF (3 * tokens.length + 3) ⟨tokens, 0⟩

/-- Decimal digit expansion of a natural number, fuel-driven. -/
def natDigitsAux : Nat → Nat → List Nat
  | 0, _ => []
  | fuel + 1, n => if n < 10 then [48 + n] else natDigitsAux fuel (n / 10) ++ [48 + n % 10]

/-- Decimal digits of a natural number. -/
def natDigits (n : Nat) : List Nat :=
  natDigitsAux (n + 1) n

/-- Digits of the fractional expansion of `rem / den`, fuel-driven. -/
def fracDigitsAux (den : Nat) : Nat → Nat → List Nat
  | 0, _ => []
  | fuel + 1, rem =>
    if rem = 0 then []
    else (48 + rem * 10 / den) :: fracDigitsAux den fuel (rem * 10 % den)

/-- Modelled from the spec: `formatFloatNumber` (its defining file is absent
from the sources) renders a number canonically, with `.0` appended for an
integral value; a non-integral value — always a finite decimal here — is
rendered with its full fractional expansion.  No claim evaluates this
function; it only keeps `Print` total. -/
def formatFloatNumber (q : ℚ) : List Nat :=
  match (if q.num < 0 then [45] else []), q.num.natAbs, q.den with
  | sign, n, d =>
    if d = 1 then sign ++ natDigits n ++ [46, 48]
    else sign ++ natDigits (n / d) ++ [46] ++ fracDigitsAux d (d + 1) (n % d)

/-- The `Print` methods of the `Expr` variants. -/
def Print : Expr → List Nat
  | Expr.boolean b => if b then [116, 114, 117, 101] else [102, 97, 108, 115, 101] -- true / false
  | Expr.nilE => [110, 105, 108]                       -- nil
  | Expr.numberLit q => formatFloatNumber q
  | Expr.stringLit s => s
  | Expr.grouping e => [40, 103, 114, 111, 117, 112, 32] ++ Print e ++ [41] -- (group _)
  | Expr.unary op e => [40] ++ op.lexeme ++ [32] ++ Print e ++ [41]         -- (op _)

/-- `printAST`. -/
def printAST (expr : Expr) : List Nat :=
  Print expr

/-- `parse`: parse an expression from the tokens and render it; `none` stands
for the fatal (`log.Fatal`) path and the panic path, on which nothing is
printed. -/
def parse (tokens : List Token) : Option (List Nat) :=
  match parseExpression tokens with
  | Res.ok (expr, _) => some (printAST expr)
  | _ => Option.none

/-- Statement helper: the one-character token kind scanned for each of the
bytes `=` `!` `<` `>` (mirrors the four fallback arms of `getToken`). -/
def relOneChar (c : Nat) : TokenType :=
  if c = 61 then TokenType.equal
  else if c = 33 then TokenType.bang
  else if c = 60 then TokenType.less
  else TokenType.greater

/-- Statement helper: the two-character token kind scanned for each of the
bytes `=` `!` `<` `>` followed by `=` (the four `getTokenByType` targets). -/
def relTwoChar (c : Nat) : TokenType :=
  if c = 61 then TokenType.equalEqual
  else if c = 33 then TokenType.bangEqual
  else if c = 60 then TokenType.lessEqual
  else TokenType.greaterEqual

/-- The single-character punctuation bytes of the spec's claim:
`( ) { } , . - + ; *`. -/
def puncBytes : List Nat :=
  [40, 41, 123, 125, 44, 46, 45, 43, 59, 42]

/-- Statement helper: the token kind of each single-character punctuation
byte (mirrors the first ten arms of `getToken`). -/
def puncType (c : Nat) : TokenType :=
  if c = 40 then TokenType.leftParen
  else if c = 41 then TokenType.rightParen
  else if c = 123 then TokenType.leftBrace
  else if c = 125 then TokenType.rightBrace
  else if c = 44 then TokenType.comma
  else if c = 46 then TokenType.dot
  else if c = 45 then TokenType.minus
  else if c = 43 then TokenType.plus
  else if c = 59 then TokenType.semicolon
  else TokenType.star

/-- The literal-slot invariant of the spec's Token model: a `NUMBER` token
carries a number and a `STRING` token carries a string. -/
def wfTok (t : Token) : Prop :=
  (t.tokenType = TokenType.number → ∃ q, t.literal = LiteralValue.num q) ∧
  (t.tokenType = TokenType.string → ∃ s, t.literal = LiteralValue.str s)

/-- The claim's side condition for C2: after the opening quote at `col` no
quote occurs on the current line before a newline or the end of the line
(every later quote position that is reachable without first crossing a
newline is not a quote). -/
def noClosingQuote (line : List Nat) (col : Nat) : Prop :=
  ∀ j, col < j → j < line.length →
    (∀ k, col < k → k ≤ j → line.getD k 0 ≠ 10) → line.getD j 0 ≠ 34

/-! ## Helper lemmas about the scanner's column loop -/

theorem scanLineAux_past_end (line : List Nat) (n fuel col : Nat) (h : line.length ≤ col) :
    scanLineAux line n fuel col = ⟨[], [], false⟩ := by
  cases fuel with
  | zero => rfl
  | succ fuel => simp [scanLineAux, Nat.not_lt.mpr h]

theorem scanLineAux_comment (line : List Nat) (n fuel col : Nat)
    (h : col < line.length) (hc : isComment line col = true) :
    scanLineAux line n (fuel + 1) col = ⟨[], [], false⟩ := by
  have hskip : line.length ≤ col + countSkipLineComment line col := by
    simp [countSkipLineComment]; omega
  simp [scanLineAux, h, hc, scanLineAux_past_end line n fuel _ hskip]

theorem scanLineAux_token (line : List Nat) (n fuel col : Nat) (tok : Token) (count : Nat)
    (h : col < line.length) (hc : isComment line col = false)
    (hs : isSpace (line.getD col 0) = false)
    (hg : getToken line n col = (Except.ok tok, count)) :
    scanLineAux line n (fuel + 1) col =
      ⟨tok :: (scanLineAux line n fuel (col + count)).tokens,
        (scanLineAux line n fuel (col + count)).errs,
        (scanLineAux line n fuel (col + count)).fatal⟩ := by
  rw [List.getD_eq_getElem line 0 h] at hs
  simp [scanLineAux, h, hc, hs, hg]

theorem scanLineAux_err (line : List Nat) (n fuel col : Nat) (e : ScanErrKind) (count : Nat)
    (h : col < line.length) (hc : isComment line col = false)
    (hs : isSpace (line.getD col 0) = false)
    (he : e ≠ ScanErrKind.numberConv)
    (hg : getToken line n col = (Except.error e, count)) :
    scanLineAux line n (fuel + 1) col =
      ⟨(scanLineAux line n fuel (col + count)).tokens,
        (n, e) :: (scanLineAux line n fuel (col + count)).errs,
        (scanLineAux line n fuel (col + count)).fatal⟩ := by
  cases e with
  | numberConv => exact absurd rfl he
  | unexpectedToken =>
    rw [List.getD_eq_getElem line 0 h] at hs
    simp [scanLineAux, h, hc, hs, hg]
  | unterminatedString =>
    rw [List.getD_eq_getElem line 0 h] at hs
    simp [scanLineAux, h, hc, hs, hg]

theorem getD_of_get? (line : List Nat) (col c : Nat) (h : line.get? col = some c) :
    line.getD col 0 = c := by
  rw [List.getD_eq_getD_get?, h]; rfl

theorem isComment_false_of_head (line : List Nat) (col c : Nat)
    (h : line.get? col = some c) (hc : c ≠ 47) : isComment line col = false := by
  simp only [List.get?_eq_getElem?] at h
  simp [isComment, h, hc]

theorem matchesFrom_single (line : List Nat) (i t : Nat) :
    matchesFrom line i [t] = (line.get? i == some t) := by
  cases h : line.get? i with
  | none =>
    have h2 := h
    simp only [List.get?_eq_getElem?] at h2
    simp [matchesFrom, h2]
  | some c =>
    have h2 := h
    simp only [List.get?_eq_getElem?] at h2
    simp [matchesFrom, h2]

theorem getToken_slash (line : List Nat) (n col : Nat) (h : line.get? col = some 47) :
    getToken line n col = (Except.ok (generateToken TokenType.slash n), 1) := by
  simp only [List.get?_eq_getElem?] at h
  simp [getToken, h]

theorem getToken_rel_two (line : List Nat) (n col c : Nat)
    (hc : c = 61 ∨ c = 33 ∨ c = 60 ∨ c = 62)
    (h : line.get? col = some c) (h2 : line.get? (col + 1) = some 61) :
    getToken line n col = (Except.ok (generateToken (relTwoChar c) n), 2) := by
  simp only [List.get?_eq_getElem?] at h h2
  rcases hc with rfl | rfl | rfl | rfl <;>
    simp [getToken, h, getTokenByType, matchesFrom, h2, typeLexeme, relTwoChar, generateToken]

theorem getToken_rel_one (line : List Nat) (n col c : Nat)
    (hc : c = 61 ∨ c = 33 ∨ c = 60 ∨ c = 62)
    (h : line.get? col = some c) (h2 : line.get? (col + 1) ≠ some 61) :
    getToken line n col = (Except.ok (generateToken (relOneChar c) n), 1) := by
  simp only [List.get?_eq_getElem?] at h h2
  have hm : ∀ d, getElem? line (col + 1) = some d → (d == 61) = false := by
    intro d hd
    have : d ≠ 61 := fun he => h2 (by rw [hd, he])
    simp [this]
  rcases hc with rfl | rfl | rfl | rfl <;>
  · cases h3 : getElem? line (col + 1) with
    | none => simp [getToken, h, getTokenByType, matchesFrom, h3, typeLexeme, relOneChar, generateToken]
    | some d => simp [getToken, h, getTokenByType, matchesFrom, h3, hm d h3, typeLexeme, relOneChar, generateToken]

theorem getToken_punc (line : List Nat) (n col c : Nat)
    (hmem : c ∈ puncBytes) (h : line.get? col = some c) :
    getToken line n col = (Except.ok (generateToken (puncType c) n), 1) := by
  simp only [List.get?_eq_getElem?] at h
  simp only [puncBytes, List.mem_cons, List.not_mem_nil, or_false] at hmem
  rcases hmem with rfl | rfl | rfl | rfl | rfl | rfl | rfl | rfl | rfl | rfl <;>
    simp [getToken, h, puncType]

theorem getToken_string_ok (line : List Nat) (n col : Nat) (str : List Nat)
    (count : Nat) (h : line.get? col = some 34)
    (hs : getStringLiteral line col = (Except.ok str, count)) :
    getToken line n col = (Except.ok (generateStrToken n str), count) := by
  simp only [List.get?_eq_getElem?] at h
  simp [getToken, h, hs]

theorem getToken_string_err (line : List Nat) (n col : Nat) (e : ScanErrKind)
    (count : Nat) (h : line.get? col = some 34)
    (hs : getStringLiteral line col = (Except.error e, count)) :
    getToken line n col = (Except.error e, count) := by
  simp only [List.get?_eq_getElem?] at h
  simp [getToken, h, hs]

theorem get?_lt_length (line : List Nat) (col c : Nat) (h : line.get? col = some c) :
    col < line.length := by
  by_contra h2
  rw [List.get?_eq_none.mpr (Nat.not_lt.mp h2)] at h
  exact Option.noConfusion h

/-- C8: a `/` immediately followed by `/` makes the scanner discard the rest of
the line and emit nothing for it (line tracking still advances at the newline,
as the concrete two-line input shows), while a lone `/` emits a `SLASH` token
and the scan resumes one byte later. -/
theorem claim_C8_comment :
    (∀ (line : List Nat) (n fuel col : Nat),
      line.get? col = some 47 → line.get? (col + 1) = some 47 →
      scanLineAux line n (fuel + 1) col = ⟨[], [], false⟩) ∧
    (∀ (line : List Nat) (n fuel col : Nat),
      line.get? col = some 47 → line.get? (col + 1) ≠ some 47 →
      scanLineAux line n (fuel + 1) col =
        ⟨generateToken TokenType.slash n :: (scanLineAux line n fuel (col + 1)).tokens,
          (scanLineAux line n fuel (col + 1)).errs, (scanLineAux line n fuel (col + 1)).fatal⟩) ∧
    scan [47, 47, 120, 10, 42] = ⟨[generateToken TokenType.star 2, eofToken 2], [], false⟩ := by
  refine ⟨?_, ?_, by decide⟩
  · intro line n fuel col h1 h2
    have hlt := get?_lt_length line col 47 h1
    have h1e := h1
    have h2e := h2
    simp only [List.get?_eq_getElem?] at h1e h2e
    have hc : isComment line col = true := by
      simp [isComment, matchNextChar, h1e, h2e]
    exact scanLineAux_comment line n fuel col hlt hc
  · intro line n fuel col h1 h2
    have hlt := get?_lt_length line col 47 h1
    have h1e := h1
    simp only [List.get?_eq_getElem?] at h1e
    have hc : isComment line col = false := by
      have hm : matchNextChar line col 47 = false := by
        cases h3 : getElem? line (col + 1) with
        | none => simp [matchNextChar, h3]
        | some d =>
          have hd : d ≠ 47 := by
            intro he
            apply h2
            simp only [List.get?_eq_getElem?]
            rw [h3, he]
          simp [matchNextChar, h3, hd]
      simp [isComment, hm]
    have hs : isSpace (line.getD col 0) = false := by
      rw [getD_of_get? line col 47 h1]
      decide
    rw [scanLineAux_token line n fuel col (generateToken TokenType.slash n) 1 hlt hc hs
      (getToken_slash line n col h1)]

/-- C8 witness: both comment discarding and the lone slash at concrete inputs. -/
theorem claim_C8_comment_witness :
    scanLineAux [47, 47, 42] 1 (4 + 1) 0 = ⟨[], [], false⟩ ∧
    scanLineAux [47, 42] 1 (3 + 1) 0 =
      ⟨generateToken TokenType.slash 1 :: (scanLineAux [47, 42] 1 3 (0 + 1)).tokens,
        (scanLineAux [47, 42] 1 3 (0 + 1)).errs, (scanLineAux [47, 42] 1 3 (0 + 1)).fatal⟩ :=
  ⟨claim_C8_comment.1 [47, 47, 42] 1 4 0 (by decide) (by decide),
   claim_C8_comment.2.1 [47, 42] 1 3 0 (by decide) (by decide)⟩

/-- C10: at an opening quote the whole quoted span is consumed in one token
step — the comment check is not applied inside it — so a quoted `a//b` yields
one STRING token with literal `a//b` and nothing is discarded. -/
theorem claim_C10_string_comment :
    (∀ (line : List Nat) (n fuel col : Nat) (str : List Nat) (count : Nat),
      line.get? col = some 34 →
      getStringLiteral line col = (Except.ok str, count) →
      scanLineAux line n (fuel + 1) col =
        ⟨generateStrToken n str :: (scanLineAux line n fuel (col + count)).tokens,
          (scanLineAux line n fuel (col + count)).errs,
          (scanLineAux line n fuel (col + count)).fatal⟩) ∧
    scan [34, 97, 47, 47, 98, 34] =
      ⟨[generateStrToken 1 [34, 97, 47, 47, 98, 34], eofToken 1], [], false⟩ ∧
    (generateStrToken 1 [34, 97, 47, 47, 98, 34]).literal = LiteralValue.str [97, 47, 47, 98] := by
  refine ⟨?_, by decide, by decide⟩
  intro line n fuel col str count h1 hs
  have hlt := get?_lt_length line col 34 h1
  have hc : isComment line col = false :=
    isComment_false_of_head line col 34 h1 (by decide)
  have hsp : isSpace (line.getD col 0) = false := by
    rw [getD_of_get? line col 34 h1]
    decide
  rw [scanLineAux_token line n fuel col (generateStrToken n str) count hlt hc hsp
    (getToken_string_ok line n col str count h1 hs)]

/-- C10 witness: the general string step at the concrete quoted input. -/
theorem claim_C10_string_comment_witness :
    scanLineAux [34, 97, 34] 1 (3 + 1) 0 =
      ⟨generateStrToken 1 [34, 97, 34] :: (scanLineAux [34, 97, 34] 1 3 (0 + 3)).tokens,
        (scanLineAux [34, 97, 34] 1 3 (0 + 3)).errs,
        (scanLineAux [34, 97, 34] 1 3 (0 + 3)).fatal⟩ :=
  claim_C10_string_comment.1 [34, 97, 34] 1 3 0 [34, 97, 34] 3 (by decide) (by rfl)

/-- C4: at `=` `!` `<` `>` the scanner emits the two-character token and
advances by 2 exactly when the next byte of the line is `=`; otherwise
(including at end of line or input) the one-character token, advancing by 1. -/
theorem claim_C4_two_char :
    ∀ (line : List Nat) (n fuel col c : Nat),
      line.get? col = some c → (c = 61 ∨ c = 33 ∨ c = 60 ∨ c = 62) →
      (line.get? (col + 1) = some 61 →
        scanLineAux line n (fuel + 1) col =
          ⟨generateToken (relTwoChar c) n :: (scanLineAux line n fuel (col + 2)).tokens,
            (scanLineAux line n fuel (col + 2)).errs,
            (scanLineAux line n fuel (col + 2)).fatal⟩) ∧
      (line.get? (col + 1) ≠ some 61 →
        scanLineAux line n (fuel + 1) col =
          ⟨generateToken (relOneChar c) n :: (scanLineAux line n fuel (col + 1)).tokens,
            (scanLineAux line n fuel (col + 1)).errs,
            (scanLineAux line n fuel (col + 1)).fatal⟩) := by
  intro line n fuel col c h1 hc
  have hlt := get?_lt_length line col c h1
  have hcom : isComment line col = false :=
    isComment_false_of_head line col c h1 (by rcases hc with rfl | rfl | rfl | rfl <;> decide)
  have hsp : isSpace (line.getD col 0) = false := by
    rw [getD_of_get? line col c h1]
    rcases hc with rfl | rfl | rfl | rfl <;> decide
  constructor
  · intro h2
    rw [scanLineAux_token line n fuel col (generateToken (relTwoChar c) n) 2 hlt hcom hsp
      (getToken_rel_two line n col c hc h1 h2)]
  · intro h2
    rw [scanLineAux_token line n fuel col (generateToken (relOneChar c) n) 1 hlt hcom hsp
      (getToken_rel_one line n col c hc h1 h2)]

/-- C4 witness: `==` at the start of a line and a lone `<` before a non-`=`. -/
theorem claim_C4_two_char_witness :
    scanLineAux [61, 61] 1 (2 + 1) 0 =
      ⟨generateToken (relTwoChar 61) 1 :: (scanLineAux [61, 61] 1 2 (0 + 2)).tokens,
        (scanLineAux [61, 61] 1 2 (0 + 2)).errs, (scanLineAux [61, 61] 1 2 (0 + 2)).fatal⟩ ∧
    scanLineAux [60, 42] 1 (2 + 1) 0 =
      ⟨generateToken (relOneChar 60) 1 :: (scanLineAux [60, 42] 1 2 (0 + 1)).tokens,
        (scanLineAux [60, 42] 1 2 (0 + 1)).errs, (scanLineAux [60, 42] 1 2 (0 + 1)).fatal⟩ :=
  ⟨(claim_C4_two_char [61, 61] 1 2 0 61 (by decide) (Or.inl rfl)).1 (by decide),
   (claim_C4_two_char [60, 42] 1 2 0 60 (by decide) (Or.inr (Or.inr (Or.inl rfl)))).2 (by decide)⟩

/-- C1 (evaluation at the failing input): on `123.` the scanner consumes the
trailing dot into the number token — the emitted NUMBER token has lexeme
`123.` and value 123, and no DOT token follows, contradicting the claimed
`123` lexeme plus separate DOT. -/
theorem claim_C1_trailing_dot :
    scan [49, 50, 51, 46] =
      ⟨[generateNumberToken 1 123 [49, 50, 51, 46], eofToken 1], [], false⟩ ∧
    (scan [49, 50, 51, 46]).tokens.map Token.tokenType = [TokenType.number, TokenType.eof] ∧
    getNumberLiteral [49, 50, 51, 46] 0 = (some 123, [49, 50, 51, 46], 4) :=
  ⟨by decide, by decide, by decide⟩

theorem getStringLiteralAux_unterm (line : List Nat) :
    ∀ (fuel i : Nat) (acc : List Nat),
      (∀ j, i ≤ j → j < line.length →
        (∀ k, i ≤ k → k ≤ j → line.getD k 0 ≠ 10) → line.getD j 0 ≠ 34) →
      ∃ i2, getStringLiteralAux line fuel i acc =
        (Except.error ScanErrKind.unterminatedString, i2) := by
  intro fuel
  induction fuel with
  | zero => intro i acc _; exact ⟨i, rfl⟩
  | succ fuel ih =>
    intro i acc hP
    by_cases hi : i < line.length
    · by_cases h10 : line.getD i 0 = 10
      · refine ⟨i, ?_⟩
        have h10e := h10
        rw [List.getD_eq_getElem line 0 hi] at h10e
        simp [getStringLiteralAux, hi, h10e]
      · have h34 : line.getD i 0 ≠ 34 := by
          apply hP i le_rfl hi
          intro k hk1 hk2
          have hki : k = i := Nat.le_antisymm hk2 hk1
          rw [hki]
          exact h10
        have hnext : ∀ j, i + 1 ≤ j → j < line.length →
            (∀ k, i + 1 ≤ k → k ≤ j → line.getD k 0 ≠ 10) → line.getD j 0 ≠ 34 := by
          intro j hj1 hj2 hnl
          apply hP j (by omega) hj2
          intro k hk1 hk2
          rcases Nat.eq_or_lt_of_le hk1 with rfl | hk3
          · exact h10
          · exact hnl k hk3 hk2
        obtain ⟨i2, hrec⟩ := ih (i + 1) (acc ++ [line.getD i 0]) hnext
        refine ⟨i2, ?_⟩
        have h10e := h10
        have h34e := h34
        rw [List.getD_eq_getElem line 0 hi] at h10e h34e hrec
        simp [getStringLiteralAux, hi, h10e, h34e, hrec]
    · refine ⟨i, ?_⟩
      simp [getStringLiteralAux, hi]

theorem getStringLiteral_unterm (line : List Nat) (col : Nat)
    (hq : noClosingQuote line col) :
    ∃ count, 1 ≤ count ∧
      getStringLiteral line col = (Except.error ScanErrKind.unterminatedString, count) := by
  have hP : ∀ j, col + 1 ≤ j → j < line.length →
      (∀ k, col + 1 ≤ k → k ≤ j → line.getD k 0 ≠ 10) → line.getD j 0 ≠ 34 := by
    intro j hj1 hj2 hnl
    exact hq j (by omega) hj2 (fun k hk1 hk2 => hnl k (by omega) hk2)
  obtain ⟨i2, h⟩ := getStringLiteralAux_unterm line (line.length + 1) (col + 1) [34] hP
  exact ⟨i2 - col + 1, by omega, by simp [getStringLiteral, h]⟩

/-- C2: an opening quote with no closing quote before the line end or input
end yields no token, exactly one unterminated-string error recorded at the
line where the string started, and scanning resumes after the span; a
terminated string such as `"abc"` yields one STRING token whose literal is
the content without the quotes, and `hadError` is set exactly in the
unterminated case. -/
theorem claim_C2_unterminated :
    (∀ (line : List Nat) (n fuel col : Nat),
      line.get? col = some 34 → noClosingQuote line col →
      ∃ count, 1 ≤ count ∧
        getToken line n col = (Except.error ScanErrKind.unterminatedString, count) ∧
        scanLineAux line n (fuel + 1) col =
          ⟨(scanLineAux line n fuel (col + count)).tokens,
            (n, ScanErrKind.unterminatedString) :: (scanLineAux line n fuel (col + count)).errs,
            (scanLineAux line n fuel (col + count)).fatal⟩) ∧
    scan [34, 97, 98, 99, 34] =
      ⟨[generateStrToken 1 [34, 97, 98, 99, 34], eofToken 1], [], false⟩ ∧
    (generateStrToken 1 [34, 97, 98, 99, 34]).literal = LiteralValue.str [97, 98, 99] ∧
    scan [34, 97, 98, 99] = ⟨[eofToken 1], [(1, ScanErrKind.unterminatedString)], false⟩ ∧
    hadError (scan [34, 97, 98, 99]) = true ∧
    hadError (scan [34, 97, 98, 99, 34]) = false := by
  refine ⟨?_, by decide, by decide, by decide, by decide, by decide⟩
  intro line n fuel col h1 hq
  have hlt := get?_lt_length line col 34 h1
  obtain ⟨count, hcount, hgs⟩ := getStringLiteral_unterm line col hq
  have hcom : isComment line col = false :=
    isComment_false_of_head line col 34 h1 (by decide)
  have hsp : isSpace (line.getD col 0) = false := by
    rw [getD_of_get? line col 34 h1]
    decide
  refine ⟨count, hcount, getToken_string_err line n col _ count h1 hgs, ?_⟩
  rw [scanLineAux_err line n fuel col ScanErrKind.unterminatedString count hlt hcom hsp
    (by decide) (getToken_string_err line n col _ count h1 hgs)]

/-- C2 witness: the unterminated `"a` at line 1. -/
theorem claim_C2_unterminated_witness :
    ∃ count, 1 ≤ count ∧
      getToken [34, 97] 1 0 = (Except.error ScanErrKind.unterminatedString, count) ∧
      scanLineAux [34, 97] 1 (2 + 1) 0 =
        ⟨(scanLineAux [34, 97] 1 2 (0 + count)).tokens,
          (1, ScanErrKind.unterminatedString) :: (scanLineAux [34, 97] 1 2 (0 + count)).errs,
          (scanLineAux [34, 97] 1 2 (0 + count)).fatal⟩ :=
  claim_C2_unterminated.1 [34, 97] 1 2 0 (by decide)
    (by
      intro j hj1 hj2 _
      have : j = 1 := by simp at hj2; omega
      rw [this]
      decide)

theorem breakLine_no_nl (input : List Nat) (h : ∀ c ∈ input, c ≠ 10) :
    breakLine input = (input, Option.none) := by
  induction input with
  | nil => rfl
  | cons c rest ih =>
    have hc : c ≠ 10 := h c (by simp)
    have hr := ih (fun x hx => h x (by simp [hx]))
    simp [breakLine, hc, hr]

theorem splitLines_no_nl (input : List Nat) (h : ∀ c ∈ input, c ≠ 10) :
    splitLines input = [input] := by
  simp [splitLines, splitLinesAux, breakLine_no_nl input h]

theorem scanLineAux_punc (line : List Nat) (hpunc : ∀ c ∈ line, c ∈ puncBytes) :
    ∀ fuel col, line.length - col < fuel →
      scanLineAux line 1 fuel col =
        ⟨(line.drop col).map (fun c => generateToken (puncType c) 1), [], false⟩ := by
  intro fuel
  induction fuel with
  | zero => intro col h; omega
  | succ fuel ih =>
    intro col h
    by_cases hcol : col < line.length
    · have hget : line.get? col = some (line.get ⟨col, hcol⟩) := List.get?_eq_get hcol
      have hc := hget
      have hmem : line.get ⟨col, hcol⟩ ∈ line := List.get_mem line col hcol
      have hp : line.get ⟨col, hcol⟩ ∈ puncBytes := hpunc _ hmem
      have h47 : line.get ⟨col, hcol⟩ ≠ 47 := by
        have : ∀ x ∈ puncBytes, x ≠ 47 := by decide
        exact this _ hp
      have hcom : isComment line col = false :=
        isComment_false_of_head line col _ hc h47
      have hsp : isSpace (line.getD col 0) = false := by
        rw [getD_of_get? line col _ hc]
        have : ∀ x ∈ puncBytes, isSpace x = false := by decide
        exact this _ hp
      rw [scanLineAux_token line 1 fuel col (generateToken (puncType (line.get ⟨col, hcol⟩)) 1) 1
        hcol hcom hsp (getToken_punc line 1 col _ hp hc)]
      rw [ih (col + 1) (by omega)]
      rw [List.drop_eq_getElem_cons hcol]
      simp only [List.get_eq_getElem, List.map_cons]
    · rw [scanLineAux_past_end line 1 (fuel + 1) col (Nat.le_of_not_lt hcol)]
      simp [List.drop_eq_nil_of_le (Nat.le_of_not_lt hcol)]

/-- C6: an input consisting solely of single-character punctuation yields one
token per byte, in input order, each with absent literal and lexeme equal to
its byte, followed by exactly one EOF token and no errors. -/
theorem claim_C6_punctuation :
    ∀ input : List Nat, (∀ c ∈ input, c ∈ puncBytes) →
      (scan input).tokens = input.map (fun c => generateToken (puncType c) 1) ++ [eofToken 1] ∧
      (scan input).errs = [] ∧ (scan input).fatal = false ∧
      ∀ c ∈ input, (generateToken (puncType c) 1).lexeme = [c] ∧
        (generateToken (puncType c) 1).literal = LiteralValue.none := by
  intro input hpunc
  have h10 : ∀ c ∈ input, c ≠ 10 := by
    intro c hc
    have : ∀ x ∈ puncBytes, x ≠ 10 := by decide
    exact this c (hpunc c hc)
  have hline := scanLineAux_punc input hpunc (input.length + 1) 0 (by omega)
  have hscan : scan input =
      ⟨input.map (fun c => generateToken (puncType c) 1) ++ [eofToken 1], [], false⟩ := by
    rw [scan, splitLines_no_nl input h10]
    simp [scanLines, scanLine, hline]
  refine ⟨by rw [hscan], by rw [hscan], by rw [hscan], ?_⟩
  intro c hc
  have : ∀ x ∈ puncBytes, (generateToken (puncType x) 1).lexeme = [x] ∧
      (generateToken (puncType x) 1).literal = LiteralValue.none := by decide
  exact this c (hpunc c hc)

/-- C6 witness: the punctuation input `(*;`. -/
theorem claim_C6_punctuation_witness :
    (scan [40, 42, 59]).tokens =
      [40, 42, 59].map (fun c => generateToken (puncType c) 1) ++ [eofToken 1] ∧
    (scan [40, 42, 59]).errs = [] ∧ (scan [40, 42, 59]).fatal = false ∧
    ∀ c ∈ [40, 42, 59], (generateToken (puncType c) 1).lexeme = [c] ∧
      (generateToken (puncType c) 1).literal = LiteralValue.none :=
  claim_C6_punctuation [40, 42, 59] (by decide)

/-! ## Helper lemmas about the parser -/

theorem advance_cases (p : Parser) :
    (∃ x p2, advance p = Res.ok (x, p2)) ∨ advance p = Res.crash := by
  cases hg : isAtEnd p with
  | none => right; simp [advance, hg]
  | some atEnd =>
    cases hp : previousToken (if atEnd then p else { p with current := p.current + 1 }) with
    | ok t =>
      left
      refine ⟨t, if atEnd then p else { p with current := p.current + 1 }, ?_⟩
      simp [advance, hg, hp]
    | err e => right; simp [advance, hg, hp]
    | crash => right; simp [advance, hg, hp]
    | fuelOut => right; simp [advance, hg, hp]

theorem matchTok_cases (p : Parser) (tokenType : TokenType) :
    (∃ p2, matchTok p tokenType = Res.ok (true, p2)) ∨
      matchTok p tokenType = Res.ok (false, p) ∨ matchTok p tokenType = Res.crash := by
  cases hg : check p tokenType with
  | none => right; right; simp [matchTok, hg]
  | some b =>
    cases b with
    | false => right; left; simp [matchTok, hg]
    | true =>
      rcases advance_cases p with ⟨x, p2, ha⟩ | ha
      · left; exact ⟨p2, by simp [matchTok, hg, ha]⟩
      · right; right; simp [matchTok, hg, ha]

theorem advance_mono (p : Parser) (x : Token) (p2 : Parser) (h : advance p = Res.ok (x, p2)) :
    p2.tokens = p.tokens ∧ p.current ≤ p2.current ∧
      (p2.current = p.current ∨ p2.current = p.current + 1) := by
  cases hg : isAtEnd p with
  | none => simp [advance, hg] at h
  | some atEnd =>
    cases atEnd with
    | true =>
      cases hp : previousToken p with
      | ok t =>
        simp [advance, hg, hp] at h
        rw [← h.2]
        exact ⟨rfl, Nat.le_refl _, Or.inl rfl⟩
      | err e => simp [advance, hg, hp] at h
      | crash => simp [advance, hg, hp] at h
      | fuelOut => simp [advance, hg, hp] at h
    | false =>
      cases hp : previousToken { p with current := p.current + 1 } with
      | ok t =>
        simp [advance, hg, hp] at h
        rw [← h.2]
        refine ⟨rfl, ?_, Or.inr ?_⟩ <;> simp
      | err e => simp [advance, hg, hp] at h
      | crash => simp [advance, hg, hp] at h
      | fuelOut => simp [advance, hg, hp] at h

theorem get?_some_lt {α : Type} (l : List α) (i : Nat) (a : α) (h : l.get? i = some a) :
    i < l.length := by
  by_contra h2
  rw [List.get?_eq_none.mpr (Nat.not_lt.mp h2)] at h
  exact Option.noConfusion h

theorem matchTok_ok_false (p : Parser) (tokenType : TokenType) (b : Bool) (p2 : Parser)
    (h : matchTok p tokenType = Res.ok (b, p2)) (hb : b = false) :
    p2 = p ∧ ∃ t, p.tokens.get? p.current = some t ∧ t.tokenType ≠ tokenType := by
  subst hb
  cases hg : p.tokens.get? p.current with
  | none =>
    have hge := hg
    simp only [List.get?_eq_getElem?] at hge
    simp [matchTok, check, currentToken, hge] at h
  | some t =>
    have hge := hg
    simp only [List.get?_eq_getElem?] at hge
    cases htt : t.tokenType == tokenType with
    | true =>
      rcases advance_cases p with ⟨x, p3, ha⟩ | ha <;>
        simp [matchTok, check, currentToken, hge, htt, ha] at h
    | false =>
      simp [matchTok, check, currentToken, hge, htt] at h
      exact ⟨h.symm, t, rfl, by simpa using htt⟩

theorem matchTok_ok_true (p : Parser) (tokenType : TokenType) (p2 : Parser)
    (hne : tokenType ≠ TokenType.eof)
    (h : matchTok p tokenType = Res.ok (true, p2)) :
    p2.tokens = p.tokens ∧ p2.current = p.current + 1 ∧ p.current < p.tokens.length ∧
      ∃ t, p.tokens.get? p.current = some t ∧ t.tokenType = tokenType := by
  cases hg : p.tokens.get? p.current with
  | none =>
    have hge := hg
    simp only [List.get?_eq_getElem?] at hge
    simp [matchTok, check, currentToken, hge] at h
  | some t =>
    have hge := hg
    simp only [List.get?_eq_getElem?] at hge
    cases htt : t.tokenType == tokenType with
    | false => simp [matchTok, check, currentToken, hge, htt] at h
    | true =>
      have hteq : t.tokenType = tokenType := by simpa using htt
      have heof : (t.tokenType == TokenType.eof) = false := by
        simp [hteq, hne]
      have hprev : previousToken { p with current := p.current + 1 } = Res.ok t := by
        simp [previousToken, hge]
      have hadv : advance p = Res.ok (t, { p with current := p.current + 1 }) := by
        simp [advance, isAtEnd, currentToken, hge, heof, hprev]
      simp [matchTok, check, currentToken, hge, htt, hadv] at h
      rw [← h]
      exact ⟨rfl, rfl, get?_some_lt p.tokens p.current t hg, t, rfl, hteq⟩

theorem advance_eof_noop (p : Parser) (t : Token)
    (hc : currentToken p = some t) (he : t.tokenType = TokenType.eof)
    (x : Token) (p2 : Parser) (h : advance p = Res.ok (x, p2)) : p2 = p := by
  have hat : isAtEnd p = some true := by
    simp [isAtEnd, hc, he]
  cases hp : previousToken p with
  | ok t2 =>
    simp [advance, hat, hp] at h
    exact h.2.symm
  | err e => simp [advance, hat, hp] at h
  | crash => simp [advance, hat, hp] at h
  | fuelOut => simp [advance, hat, hp] at h

theorem advance_wf (p : Parser)
    (hcur : p.current < p.tokens.length)
    (hfirst : ∀ t0, p.tokens.get? 0 = some t0 → t0.tokenType ≠ TokenType.eof)
    (hlast : ∀ t1, p.tokens.get? (p.tokens.length - 1) = some t1 →
      t1.tokenType = TokenType.eof) :
    ∃ x p2, advance p = Res.ok (x, p2) ∧ p2.tokens = p.tokens ∧
      p2.current < p.tokens.length ∧ p.current ≤ p2.current := by
  obtain ⟨t, hg⟩ : ∃ t, p.tokens.get? p.current = some t := by
    rw [List.get?_eq_get hcur]
    exact ⟨_, rfl⟩
  have hge := hg
  simp only [List.get?_eq_getElem?] at hge
  cases ht : t.tokenType == TokenType.eof with
  | true =>
    have hne0 : p.current ≠ 0 := by
      intro h0
      apply hfirst t (by rw [← h0]; exact hg)
      simpa using ht
    obtain ⟨t2, hg2⟩ : ∃ t2, p.tokens.get? (p.current - 1) = some t2 := by
      rw [List.get?_eq_get (by omega)]
      exact ⟨_, rfl⟩
    have hg2e := hg2
    simp only [List.get?_eq_getElem?] at hg2e
    have hprev : previousToken p = Res.ok t2 := by
      simp [previousToken, hne0, hg2e]
    refine ⟨t2, p, ?_, rfl, hcur, Nat.le_refl _⟩
    simp [advance, isAtEnd, currentToken, hge, ht, hprev]
  | false =>
    have hprev : previousToken { p with current := p.current + 1 } = Res.ok t := by
      simp [previousToken, hge]
    have hlt2 : p.current + 1 < p.tokens.length := by
      rcases Nat.lt_or_ge (p.current + 1) p.tokens.length with h2 | h2
      · exact h2
      · exfalso
        have hcur1 : p.current = p.tokens.length - 1 := by omega
        have : t.tokenType = TokenType.eof := hlast t (by rw [← hcur1]; exact hg)
        simp [this] at ht
    refine ⟨t, { p with current := p.current + 1 }, ?_, rfl, by simpa using hlt2, by simp⟩
    simp [advance, isAtEnd, currentToken, hge, ht, hprev]

theorem NewLiteral_ne_fuelOut (t : Token) : NewLiteral t ≠ Res.fuelOut := by
  cases htt : t.tokenType <;> cases hl : t.literal <;>
    simp only [NewLiteral, htt, hl] <;> (repeat' split) <;> simp

theorem NewLiteral_wf (t : Token) (hw : wfTok t) :
    (∃ e, NewLiteral t = Res.ok e) ∨ (∃ m, NewLiteral t = Res.err m) := by
  cases htt : t.tokenType with
  | number =>
    obtain ⟨q, hq⟩ := hw.1 htt
    left
    exact ⟨Expr.numberLit q, by simp [NewLiteral, htt, hq]⟩
  | string =>
    obtain ⟨str, hstr⟩ := hw.2 htt
    left
    exact ⟨Expr.stringLit str, by simp [NewLiteral, htt, hstr]⟩
  | keyword =>
    by_cases h1 : t.lexeme = [116, 114, 117, 101]
    · exact Or.inl ⟨Expr.boolean true, by simp [NewLiteral, htt, h1]⟩
    · by_cases h2 : t.lexeme = [102, 97, 108, 115, 101]
      · exact Or.inl ⟨Expr.boolean false, by simp [NewLiteral, htt, h1, h2]⟩
      · by_cases h3 : t.lexeme = [110, 105, 108]
        · exact Or.inl ⟨Expr.nilE, by simp [NewLiteral, htt, h1, h2, h3]⟩
        · exact Or.inr ⟨ParseErr.unsupportedKeyword t.lexeme,
            by simp [NewLiteral, htt, h1, h2, h3]⟩
  | leftParen => exact Or.inr ⟨ParseErr.unsupportedToken t.lexeme, by simp [NewLiteral, htt]⟩
  | rightParen => exact Or.inr ⟨ParseErr.unsupportedToken t.lexeme, by simp [NewLiteral, htt]⟩
  | leftBrace => exact Or.inr ⟨ParseErr.unsupportedToken t.lexeme, by simp [NewLiteral, htt]⟩
  | rightBrace => exact Or.inr ⟨ParseErr.unsupportedToken t.lexeme, by simp [NewLiteral, htt]⟩
  | star => exact Or.inr ⟨ParseErr.unsupportedToken t.lexeme, by simp [NewLiteral, htt]⟩
  | comma => exact Or.inr ⟨ParseErr.unsupportedToken t.lexeme, by simp [NewLiteral, htt]⟩
  | plus => exact Or.inr ⟨ParseErr.unsupportedToken t.lexeme, by simp [NewLiteral, htt]⟩
  | dot => exact Or.inr ⟨ParseErr.unsupportedToken t.lexeme, by simp [NewLiteral, htt]⟩
  | minus => exact Or.inr ⟨ParseErr.unsupportedToken t.lexeme, by simp [NewLiteral, htt]⟩
  | semicolon => exact Or.inr ⟨ParseErr.unsupportedToken t.lexeme, by simp [NewLiteral, htt]⟩
  | equal => exact Or.inr ⟨ParseErr.unsupportedToken t.lexeme, by simp [NewLiteral, htt]⟩
  | equalEqual => exact Or.inr ⟨ParseErr.unsupportedToken t.lexeme, by simp [NewLiteral, htt]⟩
  | bang => exact Or.inr ⟨ParseErr.unsupportedToken t.lexeme, by simp [NewLiteral, htt]⟩
  | bangEqual => exact Or.inr ⟨ParseErr.unsupportedToken t.lexeme, by simp [NewLiteral, htt]⟩
  | less => exact Or.inr ⟨ParseErr.unsupportedToken t.lexeme, by simp [NewLiteral, htt]⟩
  | lessEqual => exact Or.inr ⟨ParseErr.unsupportedToken t.lexeme, by simp [NewLiteral, htt]⟩
  | greater => exact Or.inr ⟨ParseErr.unsupportedToken t.lexeme, by simp [NewLiteral, htt]⟩
  | greaterEqual => exact Or.inr ⟨ParseErr.unsupportedToken t.lexeme, by simp [NewLiteral, htt]⟩
  | slash => exact Or.inr ⟨ParseErr.unsupportedToken t.lexeme, by simp [NewLiteral, htt]⟩
  | identifier => exact Or.inr ⟨ParseErr.unsupportedToken t.lexeme, by simp [NewLiteral, htt]⟩
  | eof => exact Or.inr ⟨ParseErr.unsupportedToken t.lexeme, by simp [NewLiteral, htt]⟩

theorem matchTok_wf (p : Parser) (tokenType : TokenType)
    (hne : tokenType ≠ TokenType.eof)
    (hcur : p.current < p.tokens.length)
    (hlast : ∀ t1, p.tokens.get? (p.tokens.length - 1) = some t1 →
      t1.tokenType = TokenType.eof) :
    (∃ p2, matchTok p tokenType = Res.ok (true, p2) ∧ p2.tokens = p.tokens ∧
      p2.current < p.tokens.length ∧ p.current ≤ p2.current) ∨
    matchTok p tokenType = Res.ok (false, p) := by
  obtain ⟨t, hg⟩ : ∃ t, p.tokens.get? p.current = some t := by
    rw [List.get?_eq_get hcur]
    exact ⟨_, rfl⟩
  have hge := hg
  simp only [List.get?_eq_getElem?] at hge
  cases htt : t.tokenType == tokenType with
  | false =>
    right
    simp [matchTok, check, currentToken, hge, htt]
  | true =>
    left
    have hteq : t.tokenType = tokenType := by simpa using htt
    have heof : (t.tokenType == TokenType.eof) = false := by simp [hteq, hne]
    have hprev : previousToken { p with current := p.current + 1 } = Res.ok t := by
      simp [previousToken, hge]
    have hadv : advance p = Res.ok (t, { p with current := p.current + 1 }) := by
      simp [advance, isAtEnd, currentToken, hge, heof, hprev]
    have hlt2 : p.current + 1 < p.tokens.length := by
      rcases Nat.lt_or_ge (p.current + 1) p.tokens.length with h2 | h2
      · exact h2
      · exfalso
        have hcur1 : p.current = p.tokens.length - 1 := by omega
        have : t.tokenType = TokenType.eof := hlast t (by rw [← hcur1]; exact hg)
        rw [this] at hteq
        exact hne hteq.symm
    refine ⟨{ p with current := p.current + 1 }, ?_, rfl, by simpa using hlt2, by simp⟩
    simp [matchTok, check, currentToken, hge, htt, hadv]

theorem matchF_mono : ∀ fuel : Nat,
    (∀ p e2 p2, MatchUnaryF fuel p = Res.ok (e2, p2) →
      p2.tokens = p.tokens ∧ p.current ≤ p2.current) ∧
    (∀ p e2 p2, MatchPrimaryF fuel p = Res.ok (e2, p2) →
      p2.tokens = p.tokens ∧ p.current ≤ p2.current) ∧
    (∀ p e2 p2, MatchExprF fuel p = Res.ok (e2, p2) →
      p2.tokens = p.tokens ∧ p.current ≤ p2.current) := by
  intro fuel
  induction fuel with
  | zero =>
    refine ⟨?_, ?_, ?_⟩ <;> intro p e2 p2 h <;>
      simp [MatchUnaryF, MatchPrimaryF, MatchExprF] at h
  | succ fuel ih =>
    have hUnary : ∀ p e2 p2, MatchUnaryF (fuel + 1) p = Res.ok (e2, p2) →
        p2.tokens = p.tokens ∧ p.current ≤ p2.current := by
      intro p e2 p2 h
      simp only [MatchUnaryF] at h
      rcases matchTok_cases p TokenType.bang with ⟨p1, h1⟩ | h1 | h1
      · obtain ⟨ht1, hc1, _, _⟩ := matchTok_ok_true p TokenType.bang p1 (by simp) h1
        rw [h1] at h
        simp only [] at h
        cases hp : previousToken p1 with
        | ok op =>
          rw [hp] at h
          simp only [] at h
          cases hM : MatchUnaryF fuel p1 with
          | ok ep3 =>
            rw [hM] at h
            obtain ⟨hmt, hmc⟩ := (ih.1 p1 ep3.1 ep3.2) (by rw [hM])
            simp at h
            rw [← h.2]
            constructor
            · rw [hmt, ht1]
            · omega
          | err m => rw [hM] at h; simp at h
          | crash => rw [hM] at h; simp at h
          | fuelOut => rw [hM] at h; simp at h
        | err e => rw [hp] at h; simp at h
        | crash => rw [hp] at h; simp at h
        | fuelOut => rw [hp] at h; simp at h
      · rw [h1] at h
        simp only [] at h
        rcases matchTok_cases p TokenType.minus with ⟨p1, h2⟩ | h2 | h2
        · obtain ⟨ht1, hc1, _, _⟩ := matchTok_ok_true p TokenType.minus p1 (by simp) h2
          rw [h2] at h
          simp only [] at h
          cases hp : previousToken p1 with
          | ok op =>
            rw [hp] at h
            simp only [] at h
            cases hM : MatchUnaryF fuel p1 with
            | ok ep3 =>
              rw [hM] at h
              obtain ⟨hmt, hmc⟩ := (ih.1 p1 ep3.1 ep3.2) (by rw [hM])
              simp at h
              rw [← h.2]
              constructor
              · rw [hmt, ht1]
              · omega
            | err m => rw [hM] at h; simp at h
            | crash => rw [hM] at h; simp at h
            | fuelOut => rw [hM] at h; simp at h
          | err e => rw [hp] at h; simp at h
          | crash => rw [hp] at h; simp at h
          | fuelOut => rw [hp] at h; simp at h
        · rw [h2] at h
          simp only [] at h
          exact ih.2.1 p e2 p2 h
        · rw [h2] at h; simp at h
      · rw [h1] at h; simp at h
    have hPrimary : ∀ p e2 p2, MatchPrimaryF (fuel + 1) p = Res.ok (e2, p2) →
        p2.tokens = p.tokens ∧ p.current ≤ p2.current := by
      intro p e2 p2 h
      simp only [MatchPrimaryF] at h
      rcases matchTok_cases p TokenType.leftParen with ⟨p1, h1⟩ | h1 | h1
      · obtain ⟨ht1, hc1, _, _⟩ := matchTok_ok_true p TokenType.leftParen p1 (by simp) h1
        rw [h1] at h
        simp only [] at h
        cases hM : MatchExprF fuel p1 with
        | ok ep2 =>
          rw [hM] at h
          simp only [] at h
          obtain ⟨hmt, hmc⟩ := (ih.2.2 p1 ep2.1 ep2.2) (by rw [hM])
          cases hcons : consume ep2.2 TokenType.rightParen ParseErr.expectRightParen with
          | ok p3 =>
            rw [hcons] at h
            simp at h
            rcases matchTok_cases ep2.2 TokenType.rightParen with ⟨p4, h4⟩ | h4 | h4
            · obtain ⟨ht4, hc4, _, _⟩ :=
                matchTok_ok_true ep2.2 TokenType.rightParen p4 (by simp) h4
              have hp3 : p3 = p4 := by
                simp [consume, h4] at hcons
                exact hcons.symm
              rw [← h.2, hp3]
              constructor
              · rw [ht4, hmt, ht1]
              · rw [hc4]
                omega
            · have hp3 : p3 = ep2.2 := by
                simp [consume, h4] at hcons
              rw [← h.2, hp3]
              constructor
              · rw [hmt, ht1]
              · omega
            · rw [consume, h4] at hcons
              simp at hcons
          | err m => rw [hcons] at h; simp at h
          | crash => rw [hcons] at h; simp at h
          | fuelOut => rw [hcons] at h; simp at h
        | err m => rw [hM] at h; simp at h
        | crash => rw [hM] at h; simp at h
        | fuelOut => rw [hM] at h; simp at h
      · rw [h1] at h
        simp only [] at h
        cases hct : currentToken p with
        | none => rw [hct] at h; simp at h
        | some tok =>
          rw [hct] at h
          simp only [] at h
          cases hN : NewLiteral tok with
          | ok e3 =>
            rw [hN] at h
            rcases advance_cases p with ⟨x, p3, ha⟩ | ha
            · rw [ha] at h
              obtain ⟨hat, hac, _⟩ := advance_mono p x p3 ha
              simp at h
              rw [← h.2]
              exact ⟨hat, hac⟩
            · rw [ha] at h; simp at h
          | err m =>
            rw [hN] at h
            rcases advance_cases p with ⟨x, p3, ha⟩ | ha
            · rw [ha] at h; simp at h
            · rw [ha] at h; simp at h
          | crash => rw [hN] at h; simp at h
          | fuelOut => rw [hN] at h; simp at h
      · rw [h1] at h; simp at h
    refine ⟨hUnary, hPrimary, ?_⟩
    intro p e2 p2 h
    simp only [MatchExprF] at h
    exact ih.1 p e2 p2 h

theorem consume_ne_fuelOut (p : Parser) (tokenType : TokenType) (e : ParseErr) :
    consume p tokenType e ≠ Res.fuelOut := by
  rcases matchTok_cases p tokenType with ⟨p2, h⟩ | h | h <;> simp [consume, h]

theorem matchF_adequate : ∀ fuel : Nat,
    (∀ p, 3 * (p.tokens.length - p.current) + 1 ≤ fuel → MatchPrimaryF fuel p ≠ Res.fuelOut) ∧
    (∀ p, 3 * (p.tokens.length - p.current) + 2 ≤ fuel → MatchUnaryF fuel p ≠ Res.fuelOut) ∧
    (∀ p, 3 * (p.tokens.length - p.current) + 3 ≤ fuel → MatchExprF fuel p ≠ Res.fuelOut) := by
  intro fuel
  induction fuel with
  | zero => refine ⟨?_, ?_, ?_⟩ <;> intro p hb <;> omega
  | succ fuel ih =>
    have hPrimary : ∀ p, 3 * (p.tokens.length - p.current) + 1 ≤ fuel + 1 →
        MatchPrimaryF (fuel + 1) p ≠ Res.fuelOut := by
      intro p hb
      simp only [MatchPrimaryF]
      rcases matchTok_cases p TokenType.leftParen with ⟨p1, h1⟩ | h1 | h1
      · obtain ⟨ht1, hc1, hlt1, _⟩ := matchTok_ok_true p TokenType.leftParen p1 (by simp) h1
        rw [h1]
        simp only []
        cases hM : MatchExprF fuel p1 with
        | ok ep2 =>
          cases hcons : consume ep2.2 TokenType.rightParen ParseErr.expectRightParen with
          | ok p3 => simp [hcons]
          | err m => simp [hcons]
          | crash => simp [hcons]
          | fuelOut => exact absurd hcons (consume_ne_fuelOut _ _ _)
        | err m => simp
        | crash => simp
        | fuelOut =>
          exfalso
          apply ih.2.2 p1 ?_ hM
          rw [ht1, hc1]
          omega
      · rw [h1]
        simp only []
        cases hct : currentToken p with
        | none => simp
        | some tok =>
          cases hN : NewLiteral tok with
          | ok e3 =>
            rcases advance_cases p with ⟨x, p3, ha⟩ | ha <;> simp [hN, ha]
          | err m =>
            rcases advance_cases p with ⟨x, p3, ha⟩ | ha <;> simp [hN, ha]
          | crash => simp [hN]
          | fuelOut => exact absurd hN (NewLiteral_ne_fuelOut tok)
      · rw [h1]
        simp
    have hUnary : ∀ p, 3 * (p.tokens.length - p.current) + 2 ≤ fuel + 1 →
        MatchUnaryF (fuel + 1) p ≠ Res.fuelOut := by
      intro p hb
      simp only [MatchUnaryF]
      rcases matchTok_cases p TokenType.bang with ⟨p1, h1⟩ | h1 | h1
      · obtain ⟨ht1, hc1, hlt1, _⟩ := matchTok_ok_true p TokenType.bang p1 (by simp) h1
        rw [h1]
        simp only []
        cases hp : previousToken p1 with
        | ok op =>
          cases hM : MatchUnaryF fuel p1 with
          | ok ep3 => simp
          | err m => simp
          | crash => simp
          | fuelOut =>
            exfalso
            apply ih.2.1 p1 ?_ hM
            rw [ht1, hc1]
            omega
        | err e => simp
        | crash => simp
        | fuelOut => simp
      · rw [h1]
        simp only []
        rcases matchTok_cases p TokenType.minus with ⟨p1, h2⟩ | h2 | h2
        · obtain ⟨ht1, hc1, hlt1, _⟩ := matchTok_ok_true p TokenType.minus p1 (by simp) h2
          rw [h2]
          simp only []
          cases hp : previousToken p1 with
          | ok op =>
            cases hM : MatchUnaryF fuel p1 with
            | ok ep3 => simp
            | err m => simp
            | crash => simp
            | fuelOut =>
              exfalso
              apply ih.2.1 p1 ?_ hM
              rw [ht1, hc1]
              omega
          | err e => simp
          | crash => simp
          | fuelOut => simp
        · rw [h2]
          simp only []
          apply ih.1 p
          omega
        · rw [h2]
          simp
      · rw [h1]
        simp
    refine ⟨hPrimary, hUnary, ?_⟩
    intro p hb
    simp only [MatchExprF]
    apply ih.2.1 p
    omega

theorem previousToken_ok (p : Parser) (h0 : p.current ≠ 0)
    (hlt : p.current - 1 < p.tokens.length) : ∃ t, previousToken p = Res.ok t := by
  obtain ⟨t, hg⟩ : ∃ t, p.tokens.get? (p.current - 1) = some t := by
    rw [List.get?_eq_get hlt]
    exact ⟨_, rfl⟩
  have hge := hg
  simp only [List.get?_eq_getElem?] at hge
  exact ⟨t, by simp [previousToken, h0, hge]⟩

theorem matchF_noCrash (T : List Token)
    (hfirst : ∀ t0, T.get? 0 = some t0 → t0.tokenType ≠ TokenType.eof)
    (hlast : ∀ t1, T.get? (T.length - 1) = some t1 → t1.tokenType = TokenType.eof)
    (hwf : ∀ t ∈ T, wfTok t) :
    ∀ (fuel : Nat) (p : Parser), p.tokens = T → p.current < T.length →
      (MatchUnaryF fuel p ≠ Res.crash ∧
        ∀ e2 p2, MatchUnaryF fuel p = Res.ok (e2, p2) →
          p2.tokens = T ∧ p2.current < T.length) ∧
      (MatchPrimaryF fuel p ≠ Res.crash ∧
        ∀ e2 p2, MatchPrimaryF fuel p = Res.ok (e2, p2) →
          p2.tokens = T ∧ p2.current < T.length) ∧
      (MatchExprF fuel p ≠ Res.crash ∧
        ∀ e2 p2, MatchExprF fuel p = Res.ok (e2, p2) →
          p2.tokens = T ∧ p2.current < T.length) := by
  intro fuel
  induction fuel with
  | zero =>
    intro p hpt hpc
    refine ⟨⟨by simp [MatchUnaryF], ?_⟩, ⟨by simp [MatchPrimaryF], ?_⟩,
      ⟨by simp [MatchExprF], ?_⟩⟩ <;>
      intro e2 p2 h <;> simp [MatchUnaryF, MatchPrimaryF, MatchExprF] at h
  | succ fuel ih =>
    intro p hpt hpc
    have hlast2 : ∀ q : Parser, q.tokens = T →
        ∀ t1, q.tokens.get? (q.tokens.length - 1) = some t1 →
          t1.tokenType = TokenType.eof := by
      intro q hq t1 h1
      rw [hq] at h1
      exact hlast t1 h1
    have hArm : ∀ (tk : TokenType), tk ≠ TokenType.eof →
        ∀ p1 : Parser, matchTok p tk = Res.ok (true, p1) →
        ∃ r, (match previousToken p1 with
          | Res.ok op =>
            match MatchUnaryF fuel p1 with
            | Res.ok (e, p2) => Res.ok (Expr.unary op e, p2)
            | Res.err m => Res.err m
            | Res.crash => Res.crash
            | Res.fuelOut => Res.fuelOut
          | _ => Res.crash) = r ∧ r ≠ Res.crash ∧
          ∀ e2 p2, r = Res.ok (e2, p2) → p2.tokens = T ∧ p2.current < T.length := by
      intro tk hne p1 h1
      obtain ⟨ht1, hc1, hlt1, t, hg, hteq⟩ := matchTok_ok_true p tk p1 hne h1
      have hp1c : p1.current < T.length := by
        rw [hc1]
        rw [hpt] at hlt1
        rcases Nat.lt_or_ge (p.current + 1) T.length with h2 | h2
        · exact h2
        · exfalso
          have hcur1 : p.current = T.length - 1 := by omega
          have heq : t.tokenType = TokenType.eof := by
            apply hlast t
            rw [← hcur1, ← hpt]
            exact hg
          rw [hteq] at heq
          exact hne heq
      obtain ⟨op, hprev⟩ := previousToken_ok p1 (by omega) (by rw [ht1, hpt]; omega)
      rcases (ih p1 (by rw [ht1, hpt]) hp1c).1 with ⟨hnc, hinv⟩
      cases hM : MatchUnaryF fuel p1 with
      | ok ep3 =>
        refine ⟨Res.ok (Expr.unary op ep3.1, ep3.2), by simp [hprev, hM], by simp, ?_⟩
        intro e2 p2 hok
        simp at hok
        rw [← hok.2]
        exact hinv ep3.1 ep3.2 (by rw [hM])
      | err m =>
        exact ⟨Res.err m, by simp [hprev, hM], by simp, by intro e2 p2 hok; simp at hok⟩
      | crash => exact absurd hM hnc
      | fuelOut =>
        exact ⟨Res.fuelOut, by simp [hprev, hM], by simp, by intro e2 p2 hok; simp at hok⟩
    have hUnary : MatchUnaryF (fuel + 1) p ≠ Res.crash ∧
        ∀ e2 p2, MatchUnaryF (fuel + 1) p = Res.ok (e2, p2) →
          p2.tokens = T ∧ p2.current < T.length := by
      rcases matchTok_wf p TokenType.bang (by simp) (by rw [hpt]; exact hpc)
          (hlast2 p hpt) with ⟨p1, h1, _⟩ | h1
      · obtain ⟨r, hr, hnc, hinv⟩ := hArm TokenType.bang (by simp) p1 h1
        have hval : MatchUnaryF (fuel + 1) p = r := by
          simp only [MatchUnaryF, h1]
          exact hr
        rw [hval]
        exact ⟨hnc, hinv⟩
      · rcases matchTok_wf p TokenType.minus (by simp) (by rw [hpt]; exact hpc)
            (hlast2 p hpt) with ⟨p1, h2, _⟩ | h2
        · obtain ⟨r, hr, hnc, hinv⟩ := hArm TokenType.minus (by simp) p1 h2
          have hval : MatchUnaryF (fuel + 1) p = r := by
            simp only [MatchUnaryF, h1, h2]
            exact hr
          rw [hval]
          exact ⟨hnc, hinv⟩
        · have hval : MatchUnaryF (fuel + 1) p = MatchPrimaryF fuel p := by
            simp only [MatchUnaryF, h1, h2]
          rw [hval]
          exact (ih p hpt hpc).2.1
    have hPrimary : MatchPrimaryF (fuel + 1) p ≠ Res.crash ∧
        ∀ e2 p2, MatchPrimaryF (fuel + 1) p = Res.ok (e2, p2) →
          p2.tokens = T ∧ p2.current < T.length := by
      rcases matchTok_wf p TokenType.leftParen (by simp) (by rw [hpt]; exact hpc)
          (hlast2 p hpt) with ⟨p1, h1, hinv1⟩ | h1
      · have hp1t : p1.tokens = T := by rw [hinv1.1, hpt]
        have hp1c : p1.current < T.length := by
          have h3 := hinv1.2.1
          rw [hpt] at h3
          exact h3
        rcases (ih p1 hp1t hp1c).2.2 with ⟨hnc, hinv⟩
        cases hM : MatchExprF fuel p1 with
        | ok ep2 =>
          obtain ⟨hi1, hi2⟩ := hinv ep2.1 ep2.2 (by rw [hM])
          rcases matchTok_wf ep2.2 TokenType.rightParen (by simp)
              (by rw [hi1]; exact hi2) (hlast2 ep2.2 hi1) with ⟨p4, h4, hinv4⟩ | h4
          · have hcons : consume ep2.2 TokenType.rightParen ParseErr.expectRightParen =
                Res.ok p4 := by
              simp [consume, h4]
            have hval : MatchPrimaryF (fuel + 1) p =
                Res.ok (Expr.grouping ep2.1, p4) := by
              simp only [MatchPrimaryF, h1, hM, hcons]
            rw [hval]
            refine ⟨by simp, ?_⟩
            intro e2 p2 hok
            simp at hok
            rw [← hok.2]
            refine ⟨by rw [hinv4.1, hi1], ?_⟩
            have h5 := hinv4.2.1
            rw [hi1] at h5
            exact h5
          · have hcons : consume ep2.2 TokenType.rightParen ParseErr.expectRightParen =
                Res.err ParseErr.expectRightParen := by
              simp [consume, h4]
            have hval : MatchPrimaryF (fuel + 1) p =
                Res.err ParseErr.expectRightParen := by
              simp only [MatchPrimaryF, h1, hM, hcons]
            rw [hval]
            exact ⟨by simp, by intro e2 p2 hok; simp at hok⟩
        | err m =>
          have hval : MatchPrimaryF (fuel + 1) p = Res.err m := by
            simp only [MatchPrimaryF, h1, hM]
          rw [hval]
          exact ⟨by simp, by intro e2 p2 hok; simp at hok⟩
        | crash => exact absurd hM hnc
        | fuelOut =>
          have hval : MatchPrimaryF (fuel + 1) p = Res.fuelOut := by
            simp only [MatchPrimaryF, h1, hM]
          rw [hval]
          exact ⟨by simp, by intro e2 p2 hok; simp at hok⟩
      · obtain ⟨tok, hct⟩ : ∃ tok, p.tokens.get? p.current = some tok := by
          rw [List.get?_eq_get (by rw [hpt]; exact hpc)]
          exact ⟨_, rfl⟩
        have htokT : tok ∈ T := by
          rw [← hpt]
          exact List.get?_mem hct
        have hcurtok : currentToken p = some tok := hct
        obtain ⟨x, p3, ha, hat, hac, _⟩ := by
          apply advance_wf p (by rw [hpt]; exact hpc) ?_ (hlast2 p hpt)
          intro t0 h0
          rw [hpt] at h0
          exact hfirst t0 h0
        have hp3 : p3.tokens = T ∧ p3.current < T.length := by
          refine ⟨by rw [hat, hpt], ?_⟩
          rw [hpt] at hac
          exact hac
        rcases NewLiteral_wf tok (hwf tok htokT) with ⟨e3, hN⟩ | ⟨m, hN⟩
        · have hval : MatchPrimaryF (fuel + 1) p = Res.ok (e3, p3) := by
            simp only [MatchPrimaryF, h1, hcurtok, hN, ha]
          rw [hval]
          refine ⟨by simp, ?_⟩
          intro e2 p2 hok
          simp at hok
          rw [← hok.2]
          exact hp3
        · have hval : MatchPrimaryF (fuel + 1) p = Res.err m := by
            simp only [MatchPrimaryF, h1, hcurtok, hN, ha]
          rw [hval]
          exact ⟨by simp, by intro e2 p2 hok; simp at hok⟩
    refine ⟨hUnary, hPrimary, ?_⟩
    have hval : MatchExprF (fuel + 1) p = MatchUnaryF fuel p := by
      simp only [MatchExprF]
    rw [hval]
    exact (ih p hpt hpc).1

theorem NewLiteral_err (t : Token)
    (hnum : t.tokenType ≠ TokenType.number) (hstr : t.tokenType ≠ TokenType.string)
    (hkw : t.tokenType = TokenType.keyword → t.lexeme ≠ [116, 114, 117, 101] ∧
      t.lexeme ≠ [102, 97, 108, 115, 101] ∧ t.lexeme ≠ [110, 105, 108]) :
    ∃ m, NewLiteral t = Res.err m := by
  cases htt : t.tokenType with
  | number => exact absurd htt hnum
  | string => exact absurd htt hstr
  | keyword =>
    obtain ⟨h1, h2, h3⟩ := hkw htt
    exact ⟨ParseErr.unsupportedKeyword t.lexeme, by simp [NewLiteral, htt, h1, h2, h3]⟩
  | leftParen => exact ⟨ParseErr.unsupportedToken t.lexeme, by simp [NewLiteral, htt]⟩
  | rightParen => exact ⟨ParseErr.unsupportedToken t.lexeme, by simp [NewLiteral, htt]⟩
  | leftBrace => exact ⟨ParseErr.unsupportedToken t.lexeme, by simp [NewLiteral, htt]⟩
  | rightBrace => exact ⟨ParseErr.unsupportedToken t.lexeme, by simp [NewLiteral, htt]⟩
  | star => exact ⟨ParseErr.unsupportedToken t.lexeme, by simp [NewLiteral, htt]⟩
  | comma => exact ⟨ParseErr.unsupportedToken t.lexeme, by simp [NewLiteral, htt]⟩
  | plus => exact ⟨ParseErr.unsupportedToken t.lexeme, by simp [NewLiteral, htt]⟩
  | dot => exact ⟨ParseErr.unsupportedToken t.lexeme, by simp [NewLiteral, htt]⟩
  | minus => exact ⟨ParseErr.unsupportedToken t.lexeme, by simp [NewLiteral, htt]⟩
  | semicolon => exact ⟨ParseErr.unsupportedToken t.lexeme, by simp [NewLiteral, htt]⟩
  | equal => exact ⟨ParseErr.unsupportedToken t.lexeme, by simp [NewLiteral, htt]⟩
  | equalEqual => exact ⟨ParseErr.unsupportedToken t.lexeme, by simp [NewLiteral, htt]⟩
  | bang => exact ⟨ParseErr.unsupportedToken t.lexeme, by simp [NewLiteral, htt]⟩
  | bangEqual => exact ⟨ParseErr.unsupportedToken t.lexeme, by simp [NewLiteral, htt]⟩
  | less => exact ⟨ParseErr.unsupportedToken t.lexeme, by simp [NewLiteral, htt]⟩
  | lessEqual => exact ⟨ParseErr.unsupportedToken t.lexeme, by simp [NewLiteral, htt]⟩
  | greater => exact ⟨ParseErr.unsupportedToken t.lexeme, by simp [NewLiteral, htt]⟩
  | greaterEqual => exact ⟨ParseErr.unsupportedToken t.lexeme, by simp [NewLiteral, htt]⟩
  | slash => exact ⟨ParseErr.unsupportedToken t.lexeme, by simp [NewLiteral, htt]⟩
  | identifier => exact ⟨ParseErr.unsupportedToken t.lexeme, by simp [NewLiteral, htt]⟩
  | eof => exact ⟨ParseErr.unsupportedToken t.lexeme, by simp [NewLiteral, htt]⟩

theorem matchTok_false_of_type (p : Parser) (tokenType : TokenType) (t : Token)
    (hct : currentToken p = some t) (hne : t.tokenType ≠ tokenType) :
    matchTok p tokenType = Res.ok (false, p) := by
  have hb : (t.tokenType == tokenType) = false := by simp [hne]
  simp [matchTok, check, hct, hb]

theorem advance_ok_of_current (p : Parser) (t : Token)
    (hct : currentToken p = some t)
    (h0 : t.tokenType = TokenType.eof → p.current ≠ 0) :
    ∃ x p2, advance p = Res.ok (x, p2) := by
  have hcur : p.current < p.tokens.length := get?_some_lt p.tokens p.current t hct
  cases heof : t.tokenType == TokenType.eof with
  | true =>
    have hne0 : p.current ≠ 0 := h0 (by simpa using heof)
    obtain ⟨t2, hprev⟩ := previousToken_ok p hne0 (by omega)
    refine ⟨t2, p, ?_⟩
    simp [advance, isAtEnd, hct, heof, hprev]
  | false =>
    have hge := hct
    simp only [currentToken, List.get?_eq_getElem?] at hge
    have hprev : previousToken { p with current := p.current + 1 } = Res.ok t := by
      simp [previousToken, hge]
    refine ⟨t, { p with current := p.current + 1 }, ?_⟩
    simp [advance, isAtEnd, hct, heof, hprev]

/-- C9: on the empty-input token sequence (a single EOF token) the
non-parenthesis branch of `MatchPrimary` computes the unsupported-primary
error, but the unconditional `advance` — a no-op increment since `isAtEnd`
holds — returns `previousToken`, which reads the slice at index `-1`; the
parse aborts with that out-of-range access instead of returning the error. -/
theorem claim_C9_empty_input_crash :
    NewLiteral (eofToken 0) = Res.err (ParseErr.unsupportedToken []) ∧
    isAtEnd ⟨[eofToken 0], 0⟩ = some true ∧
    previousToken ⟨[eofToken 0], 0⟩ = Res.crash ∧
    advance ⟨[eofToken 0], 0⟩ = Res.crash ∧
    MatchPrimaryF 4 ⟨[eofToken 0], 0⟩ = Res.crash ∧
    parseExpression [eofToken 0] = Res.crash ∧
    ∀ er, parseExpression [eofToken 0] ≠ Res.err er := by
  have h6 : parseExpression [eofToken 0] = Res.crash := by decide
  refine ⟨by decide, by decide, by decide, by decide, by decide, h6, ?_⟩
  intro er hok
  rw [h6] at hok
  exact Res.noConfusion hok

/-- C5: the printer renders `Grouping` as `(group …)` and `Unary` as
`(lexeme …)`, and the full scan-parse-print pipeline maps `true` to `true`
and `!!false` to `(! (! false))`. -/
theorem claim_C5_printer :
    (∀ e : Expr, Print (Expr.grouping e) =
      [40, 103, 114, 111, 117, 112, 32] ++ Print e ++ [41]) ∧
    (∀ (op : Token) (e : Expr), Print (Expr.unary op e) =
      [40] ++ op.lexeme ++ [32] ++ Print e ++ [41]) ∧
    parse ((scan [116, 114, 117, 101]).tokens) = some [116, 114, 117, 101] ∧
    parse ((scan [33, 33, 102, 97, 108, 115, 101]).tokens) =
      some [40, 33, 32, 40, 33, 32, 102, 97, 108, 115, 101, 41, 41] :=
  ⟨fun _ => rfl, fun _ _ => rfl, by decide, by decide⟩

/-- C3 counterexample: at the primary position of the empty input (first
token EOF, cursor 0) — a token that is not NUMBER, STRING, true, false, nil
or `(` — the parse does not fail with a syntax error: it aborts with the
out-of-range read. -/
theorem claim_C3_counterexample :
    parseExpression [eofToken 0] = Res.crash ∧
    (∀ er, parseExpression [eofToken 0] ≠ Res.err er) ∧
    (eofToken 0).tokenType ≠ TokenType.number ∧
    (eofToken 0).tokenType ≠ TokenType.string ∧
    (eofToken 0).tokenType ≠ TokenType.leftParen ∧
    (eofToken 0).tokenType ≠ TokenType.keyword := by
  have h : parseExpression [eofToken 0] = Res.crash := by decide
  refine ⟨h, ?_, by decide, by decide, by decide, by decide⟩
  intro er hok
  rw [h] at hok
  exact Res.noConfusion hok

/-- C3 (amended): a consumed `(` whose inner expression is not followed by
`)` yields the missing-closing-paren error; an unsupported token at primary
position yields a syntax error — except the EOF token at cursor 0 (empty
input), where the parse aborts with an out-of-range read instead; the first
error propagates out unchanged (no recovery), and a grouped success yields
`Grouping` around exactly the inner expression. -/
theorem claim_C3_syntax_errors :
    (∀ (fuel : Nat) (p p1 : Parser) (ex : Expr) (p2 : Parser) (t : Token),
      matchTok p TokenType.leftParen = Res.ok (true, p1) →
      MatchExprF fuel p1 = Res.ok (ex, p2) →
      currentToken p2 = some t → t.tokenType ≠ TokenType.rightParen →
      MatchPrimaryF (fuel + 1) p = Res.err ParseErr.expectRightParen) ∧
    (∀ (fuel : Nat) (p : Parser) (t : Token),
      currentToken p = some t →
      t.tokenType ≠ TokenType.number → t.tokenType ≠ TokenType.string →
      t.tokenType ≠ TokenType.leftParen →
      (t.tokenType = TokenType.keyword → t.lexeme ≠ [116, 114, 117, 101] ∧
        t.lexeme ≠ [102, 97, 108, 115, 101] ∧ t.lexeme ≠ [110, 105, 108]) →
      (t.tokenType = TokenType.eof → p.current ≠ 0) →
      ∃ er, MatchPrimaryF (fuel + 1) p = Res.err er) ∧
    (∀ (fuel : Nat) (p p1 : Parser) (ex : Expr) (p2 p3 : Parser),
      matchTok p TokenType.leftParen = Res.ok (true, p1) →
      MatchExprF fuel p1 = Res.ok (ex, p2) →
      consume p2 TokenType.rightParen ParseErr.expectRightParen = Res.ok p3 →
      MatchPrimaryF (fuel + 1) p = Res.ok (Expr.grouping ex, p3)) ∧
    (∀ (fuel : Nat) (p p1 : Parser) (e : ParseErr),
      matchTok p TokenType.leftParen = Res.ok (true, p1) →
      MatchExprF fuel p1 = Res.err e →
      MatchPrimaryF (fuel + 1) p = Res.err e) ∧
    (∀ (fuel : Nat) (p p1 : Parser) (e : ParseErr) (op : Token),
      matchTok p TokenType.bang = Res.ok (true, p1) →
      previousToken p1 = Res.ok op →
      MatchUnaryF fuel p1 = Res.err e →
      MatchUnaryF (fuel + 1) p = Res.err e) := by
  refine ⟨?_, ?_, ?_, ?_, ?_⟩
  · intro fuel p p1 ex p2 t h1 hM hct hne
    have hcons : consume p2 TokenType.rightParen ParseErr.expectRightParen =
        Res.err ParseErr.expectRightParen := by
      simp [consume, matchTok_false_of_type p2 TokenType.rightParen t hct hne]
    simp only [MatchPrimaryF, h1, hM, hcons]
  · intro fuel p t hct hnum hstr hlp hkw heof0
    have h1 : matchTok p TokenType.leftParen = Res.ok (false, p) :=
      matchTok_false_of_type p TokenType.leftParen t hct hlp
    obtain ⟨m, hN⟩ := NewLiteral_err t hnum hstr hkw
    obtain ⟨x, p3, ha⟩ := advance_ok_of_current p t hct heof0
    refine ⟨m, ?_⟩
    simp only [MatchPrimaryF, h1, hct, hN, ha]
  · intro fuel p p1 ex p2 p3 h1 hM hcons
    simp only [MatchPrimaryF, h1, hM, hcons]
  · intro fuel p p1 e h1 hM
    simp only [MatchPrimaryF, h1, hM]
  · intro fuel p p1 e op h1 hp hM
    simp only [MatchUnaryF, h1, hp, hM]

/-- C3 witness: a missing closing parenthesis after `(1`, and the unsupported
primary `;`. -/
theorem claim_C3_syntax_errors_witness :
    MatchPrimaryF (6 + 1) ⟨[generateToken TokenType.leftParen 1,
      generateNumberToken 1 1 [49], generateToken TokenType.semicolon 1, eofToken 1], 0⟩ =
      Res.err ParseErr.expectRightParen ∧
    ∃ er, MatchPrimaryF (3 + 1) ⟨[generateToken TokenType.semicolon 1, eofToken 1], 0⟩ =
      Res.err er :=
  ⟨claim_C3_syntax_errors.1 6 _ ⟨[generateToken TokenType.leftParen 1,
      generateNumberToken 1 1 [49], generateToken TokenType.semicolon 1, eofToken 1], 1⟩
      (Expr.numberLit 1) ⟨[generateToken TokenType.leftParen 1,
      generateNumberToken 1 1 [49], generateToken TokenType.semicolon 1, eofToken 1], 2⟩
      (generateToken TokenType.semicolon 1) (by decide) (by decide) (by decide) (by decide),
   claim_C3_syntax_errors.2.1 3 ⟨[generateToken TokenType.semicolon 1, eofToken 1], 0⟩
      (generateToken TokenType.semicolon 1) (by decide) (by decide) (by decide) (by decide)
      (fun h => absurd h (by decide)) (fun h => absurd h (by decide))⟩

/-- C7 counterexample: the token sequence consisting of the EOF token alone is
finite and EOF-terminated, yet `parseExpression` returns neither an
expression nor an error — it aborts with an out-of-range read. -/
theorem claim_C7_counterexample :
    ([eofToken 0].get? ([eofToken 0].length - 1) = some (eofToken 0) ∧
      (eofToken 0).tokenType = TokenType.eof) ∧
    parseExpression [eofToken 0] = Res.crash ∧
    (∀ e2 p2, parseExpression [eofToken 0] ≠ Res.ok (e2, p2)) ∧
    (∀ er, parseExpression [eofToken 0] ≠ Res.err er) := by
  have h : parseExpression [eofToken 0] = Res.crash := by decide
  refine ⟨by decide, h, ?_, ?_⟩
  · intro e2 p2 hok
    rw [h] at hok
    exact Res.noConfusion hok
  · intro er hok
    rw [h] at hok
    exact Res.noConfusion hok

/-- C7 (amended): the cursor never decreases — `advance` and the whole of
`parseExpression` only move it forward — and `advance` is a no-op on `EOF`;
`parseExpression` always terminates: the fixed fuel is never exhausted, and
on every EOF-terminated token sequence that satisfies the spec's
literal-slot invariant and does not start with EOF it returns an expression
or an error (with the first token EOF — empty input — it aborts with an
out-of-range read instead, see the counterexample). -/
theorem claim_C7_cursor_termination :
    (∀ (p : Parser) (t : Token), currentToken p = some t →
      t.tokenType = TokenType.eof →
      ∀ x p2, advance p = Res.ok (x, p2) → p2 = p) ∧
    (∀ (p : Parser) (x : Token) (p2 : Parser), advance p = Res.ok (x, p2) →
      p.current ≤ p2.current) ∧
    (∀ (fuel : Nat) (p : Parser) (e2 : Expr) (p2 : Parser),
      MatchExprF fuel p = Res.ok (e2, p2) →
      p.current ≤ p2.current ∧ p2.tokens = p.tokens) ∧
    (∀ tokens : List Token, parseExpression tokens ≠ Res.fuelOut) ∧
    (∀ tokens : List Token,
      (∀ t0, tokens.get? 0 = some t0 → t0.tokenType ≠ TokenType.eof) →
      (∀ t1, tokens.get? (tokens.length - 1) = some t1 →
        t1.tokenType = TokenType.eof) →
      (∀ t ∈ tokens, wfTok t) →
      tokens ≠ [] →
      (∃ e2 p2, parseExpression tokens = Res.ok (e2, p2)) ∨
      (∃ er, parseExpression tokens = Res.err er)) := by
  refine ⟨?_, ?_, ?_, ?_, ?_⟩
  · exact advance_eof_noop
  · intro p x p2 h
    exact (advance_mono p x p2 h).2.1
  · intro fuel p e2 p2 h
    obtain ⟨h1, h2⟩ := (matchF_mono fuel).2.2 p e2 p2 h
    exact ⟨h2, h1⟩
  · intro tokens
    apply (matchF_adequate (3 * tokens.length + 3)).2.2
    show 3 * (tokens.length - 0) + 3 ≤ 3 * tokens.length + 3
    omega
  · intro tokens hfirst hlast hwf hne
    have hlen : 0 < tokens.length := List.length_pos.mpr hne
    have hnc := (matchF_noCrash tokens hfirst hlast hwf
      (3 * tokens.length + 3) ⟨tokens, 0⟩ rfl hlen).2.2
    have hfo : MatchExprF (3 * tokens.length + 3) ⟨tokens, 0⟩ ≠ Res.fuelOut := by
      apply (matchF_adequate (3 * tokens.length + 3)).2.2
      show 3 * (tokens.length - 0) + 3 ≤ 3 * tokens.length + 3
      omega
    cases hval : MatchExprF (3 * tokens.length + 3) ⟨tokens, 0⟩ with
    | ok ep => exact Or.inl ⟨ep.1, ep.2, by rw [parseExpression, hval]⟩
    | err m => exact Or.inr ⟨m, by rw [parseExpression, hval]⟩
    | crash => exact absurd hval hnc.1
    | fuelOut => exact absurd hval hfo

/-- C7 witness: the parse of the single keyword `true` followed by EOF
returns an expression. -/
theorem claim_C7_cursor_termination_witness :
    (∃ e2 p2, parseExpression [generateKeywordToken 1 [116, 114, 117, 101], eofToken 1] =
      Res.ok (e2, p2)) ∨
    (∃ er, parseExpression [generateKeywordToken 1 [116, 114, 117, 101], eofToken 1] =
      Res.err er) :=
  claim_C7_cursor_termination.2.2.2.2 [generateKeywordToken 1 [116, 114, 117, 101], eofToken 1]
    (by intro t0 h0; simp at h0; rw [← h0]; decide)
    (by intro t1 h1; simp at h1; rw [← h1]; decide)
    (by
      intro t ht
      simp at ht
      rcases ht with rfl | rfl
      · exact ⟨fun h => absurd h (by decide), fun h => absurd h (by decide)⟩
      · exact ⟨fun h => absurd h (by decide), fun h => absurd h (by decide)⟩)
    (by decide)
